import Mathlib

/-!
Verification of the contact discovery and reconciliation engine
(`src/tools/enrich_contacts.py`) against its natural-language specification.

The Python module is shallowly embedded: strings are `List Char` (the model is
exact for ASCII data; Python's Unicode-aware case mapping is modelled by the
ASCII case mapping, which agrees with Python on all inputs appearing in the
claims), regular expressions are embedded as an executable backtracking
matcher mirroring CPython `re` semantics (leftmost match, left-biased
alternation, greedy repetition), parsed HTML documents (BeautifulSoup) are
abstracted as a structure holding anchor hrefs, text fragments and the card
lists returned by the fixed CSS selectors, and all network effects
(`requests`, the Hunter.io endpoints) are passed in as oracle parameters.
Python `set` iteration order is unspecified; it is modelled by insertion
order and, where the code observes an order (the email list), the code
sorts by a total key, making the result order-independent.
-/

set_option maxRecDepth 10000

/-- Python strings are modelled as lists of characters. -/
abbrev Str := List Char

/-- Shorthand to turn a Lean string literal into the model type. -/
def str (s : String) : Str := s.data

/-- ASCII lower-casing of one character, the model of Python `str.lower` on
the ASCII range (Python is Unicode-aware; all data in this development is
ASCII). -/
def lowChar (c : Char) : Char := c.toLower

/-- ASCII upper-casing of one character, model of Python `str.upper`. -/
def upChar (c : Char) : Char := c.toUpper

/-- Model of Python `str.lower`. -/
def pyLower (s : Str) : Str := s.map lowChar

/-- Model of Python `str.upper`. -/
def pyUpper (s : Str) : Str := s.map upChar

/-- Python whitespace for `str.strip` / `str.split` / regex `\s`
(space, tab, newline, carriage return, vertical tab, form feed). -/
def isPySpace (c : Char) : Bool :=
  c = ' ' || c = '\t' || c = '\n' || c = '\r' || c = '\x0b' || c = '\x0c'

/-- Model of Python `str.strip()` (no argument): trim whitespace at both ends. -/
def pyStrip (s : Str) : Str :=
  ((s.dropWhile isPySpace).reverse.dropWhile isPySpace).reverse

/-- Model of `str.rstrip('/')`: drop all trailing `/`. -/
def rstripSlash (s : Str) : Str :=
  (s.reverse.dropWhile (· = '/')).reverse

/-- Model of `str.lstrip('/')`: drop all leading `/`. -/
def lstripSlash (s : Str) : Str := s.dropWhile (· = '/')

/-- Does `p` occur at the start of `s`?  Model of Python `str.startswith`. -/
def strStarts : Str → Str → Bool
  | [], _ => true
  | _ :: _, [] => false
  | p :: ps, c :: cs => p = c && strStarts ps cs

/-- Does `p` occur at the end of `s`?  Model of Python `str.endswith`. -/
def strEnds (p s : Str) : Bool := strStarts p.reverse s.reverse

/-- Does `n` occur as a contiguous substring of `h`?  Model of Python `in`. -/
def occursIn (n : Str) : Str → Bool
  | [] => strStarts n []
  | c :: rest => strStarts n (c :: rest) || occursIn n rest

/-- Is character `c` one of the characters of `s`?  Model of `c in s`. -/
def hasChar (c : Char) (s : Str) : Bool := s.any (· = c)

/-- Model of `str.removeprefix(p)`. -/
def stripPre (p s : Str) : Str :=
  if strStarts p s then s.drop p.length else s

/-- Split at every occurrence of character `c`; model of `str.split(c)`. -/
def splitCh (c : Char) : Str → List Str
  | [] => [[]]
  | x :: xs =>
    let r := splitCh c xs
    if x = c then [] :: r
    else (x :: r.headD []) :: r.tail

/-- Helper for `pyWords`: accumulate the current word (reversed). -/
def pyWordsGo : Str → Str → List Str
  | w, [] => if w = [] then [] else [w.reverse]
  | w, c :: rest =>
    if isPySpace c then
      if w = [] then pyWordsGo [] rest else w.reverse :: pyWordsGo [] rest
    else pyWordsGo (c :: w) rest

/-- Model of Python `str.split()` with no argument: split on whitespace runs,
dropping empty fragments. -/
def pyWords (s : Str) : List Str := pyWordsGo [] s

/-- Model of Python `str.title()`: the first letter of every run of alphabetic
characters is upper-cased, the rest lower-cased. -/
def pyTitleGo : Bool → Str → Str
  | _, [] => []
  | prevAlpha, c :: rest =>
    if c.isAlpha then
      (if prevAlpha then lowChar c else upChar c) :: pyTitleGo true rest
    else c :: pyTitleGo false rest

/-- Model of Python `str.title()`. -/
def pyTitle (s : Str) : Str := pyTitleGo false s

/-- Remove every occurrence of the pattern `pat` from `s` (model of
`str.replace(pat, '')`, which scans left to right without overlap). -/
def removeSub (pat : Str) : Nat → Str → Str
  | 0, s => s
  | _ + 1, [] => []
  | fuel + 1, c :: cs =>
    if pat ≠ [] ∧ strStarts pat (c :: cs) then
      removeSub pat fuel ((c :: cs).drop pat.length)
    else c :: removeSub pat fuel cs

/-- Model of `str.replace(pat, '')` for a non-empty pattern. -/
def pyRemove (pat s : Str) : Str := removeSub pat s.length s

/-- Append an element to a list if not already present: the model of
`set.add` under the insertion-order reading of Python set iteration. -/
def addUniq (l : List Str) (e : Str) : List Str :=
  if e ∈ l then l else l ++ [e]

/-- Python string comparison `a < b`: lexicographic by code point. -/
def strLtB : Str → Str → Bool
  | [], [] => false
  | [], _ :: _ => true
  | _ :: _, [] => false
  | a :: as_, b :: bs =>
    if a.toNat < b.toNat then true
    else if a = b then strLtB as_ bs
    else false

/-!
## Regular expression engine

An executable backtracking matcher with CPython `re` semantics: alternation
prefers the left branch, repetition is greedy, `search` returns the leftmost
match, capture groups record the consumed substring.  The declarative
semantics `Matches` (used to state "satisfies the email grammar") is related
to the matcher by `matchList_sound`.
-/

/-- Regular expression syntax.  `cls` is a character class, `grp` a numbered
capture group, `bnd` the word boundary `\b`, `eol` the end anchor `$`. -/
inductive Re where
  | eps : Re
  | cls : (Char → Bool) → Re
  | cat : Re → Re → Re
  | alt : Re → Re → Re
  | star : Re → Re
  | grp : Nat → Re → Re
  | bnd : Re
  | eol : Re

/-- Greedy `r?`. -/
def Re.opt (r : Re) : Re := .alt r .eps

/-- Greedy `r+`. -/
def Re.plus (r : Re) : Re := .cat r (.star r)

/-- Greedy `r{2,}`. -/
def Re.rep2 (r : Re) : Re := .cat r (.plus r)

/-- Matcher state: remaining input, the previously consumed character
(for `\b`), and the two capture registers used by the module's patterns. -/
structure MSt where
  s : Str
  prev : Option Char
  g1 : Str
  g2 : Str
deriving DecidableEq, Repr

/-- Regex word character `\w` = `[a-zA-Z0-9_]`. -/
def isWordChar (c : Char) : Bool := c.isAlphanum || c = '_'

/-- Is the boundary between `prev` and the head of `s` a `\b` boundary? -/
def atBoundary (prev : Option Char) (s : Str) : Bool :=
  let l := match prev with | some c => isWordChar c | none => false
  let r := match s with | c :: _ => isWordChar c | [] => false
  l != r

/-- Structural size of a regex, used to bound the matcher's fuel. -/
def reSize : Re → Nat
  | .eps => 1
  | .cls _ => 1
  | .cat a b => reSize a + reSize b + 1
  | .alt a b => reSize a + reSize b + 1
  | .star a => reSize a + 1
  | .grp _ a => reSize a + 1
  | .bnd => 1
  | .eol => 1

/-- All ways the regex can match a prefix of the state's input, in CPython
backtracking priority order (left alternative first, longer repetition
first).  The star case only keeps progressing iterations, which agrees with
CPython on every pattern of the module (each starred body consumes at least
one character when it succeeds). -/
def matchList : Nat → Re → MSt → List MSt
  | 0, _, _ => []
  | _ + 1, .eps, st => [st]
  | _ + 1, .cls p, st =>
    match st.s with
    | [] => []
    | c :: rest => if p c then [{ st with s := rest, prev := some c }] else []
  | fuel + 1, .cat a b, st =>
    (matchList fuel a st).flatMap fun st2 => matchList fuel b st2
  | fuel + 1, .alt a b, st => matchList fuel a st ++ matchList fuel b st
  | fuel + 1, .star a, st =>
    (((matchList fuel a st).filter fun st2 => st2.s.length < st.s.length).flatMap
      fun st2 => matchList fuel (.star a) st2) ++ [st]
  | fuel + 1, .grp n a, st =>
    (matchList fuel a st).map fun st2 =>
      let cap := st.s.take (st.s.length - st2.s.length)
      if n = 1 then { st2 with g1 := cap } else { st2 with g2 := cap }
  | _ + 1, .bnd, st => if atBoundary st.prev st.s then [st] else []
  | _ + 1, .eol, st => if st.s.isEmpty then [st] else []

/-- Fuel sufficient for the matcher never to run dry: every recursive call
either shrinks the regex or consumes input. -/
def reFuel (re : Re) (s : Str) : Nat := (reSize re + 1) * (s.length + 2)

/-- Initial matcher state at a given left context. -/
def mInit (prev : Option Char) (s : Str) : MSt := ⟨s, prev, [], []⟩

/-- Model of `pattern.match(s)` at the start of the string: the highest
priority way the pattern matches a prefix, if any. -/
def reMatchSt (re : Re) (s : Str) : Option MSt :=
  (matchList (reFuel re s) re (mInit none s)).head?

/-- Truthiness of `pattern.match(s)`. -/
def reMatchB (re : Re) (s : Str) : Bool := (reMatchSt re s).isSome

/-- Model of `pattern.fullmatch(s)` truthiness: some derivation consumes the
whole string. -/
def reFullmatchB (re : Re) (s : Str) : Bool :=
  (matchList (reFuel re s) re (mInit none s)).any fun st => st.s.isEmpty

/-- Scan for the leftmost match, carrying the left context for `\b`.
Model of `pattern.search(s)`; returns the final state of the match. -/
def reSearchGo (re : Re) (prev : Option Char) : Str → Option MSt
  | [] => (matchList (reFuel re []) re (mInit prev [])).head?
  | c :: rest =>
    match (matchList (reFuel re (c :: rest)) re (mInit prev (c :: rest))).head? with
    | some st => some st
    | none => reSearchGo re (some c) rest

/-- Model of `pattern.search(s)`. -/
def reSearch (re : Re) (s : Str) : Option MSt := reSearchGo re none s

/-- One scanning step of `finditer`: at the current position report the
highest-priority match and continue after it (non-overlapping), else advance
one character.  Reports the pair (whole match, final state). -/
def reFindGo (re : Re) : Nat → Option Char → Str → List (Str × MSt)
  | 0, _, _ => []
  | fuel + 1, prev, s =>
    match (matchList (reFuel re s) re (mInit prev s)).head? with
    | some st =>
      let len := s.length - st.s.length
      if len = 0 then
        match s with
        | [] => [([], st)]
        | c :: rest => ([], st) :: reFindGo re fuel (some c) rest
      else (s.take len, st) :: reFindGo re fuel st.prev st.s
    | none =>
      match s with
      | [] => []
      | c :: rest => reFindGo re fuel (some c) rest

/-- Model of `pattern.finditer(s)` collecting whole-match substrings
(also `pattern.findall` for a group-free pattern). -/
def reFindAll (re : Re) (s : Str) : List Str :=
  (reFindGo re (s.length + 1) none s).map Prod.fst

/-- Model of `pattern.findall(s)` for a pattern with exactly one group:
the list of group-1 captures of the successive matches. -/
def reFindAllG1 (re : Re) (s : Str) : List Str :=
  (reFindGo re (s.length + 1) none s).map fun r => r.2.g1

/-!
## Fixed configuration tables of `enrich_contacts.py`
-/

/-- `TITLE_PRIORITY`: lower index = higher priority. -/
def TITLE_PRIORITY : List Str :=
  [str "chief compliance officer", str "cco",
   str "principal", str "managing member", str "managing partner",
   str "founder", str "co-founder",
   str "chief executive officer", str "ceo",
   str "president",
   str "owner",
   str "chief operating officer", str "coo",
   str "chief financial officer", str "cfo",
   str "director", str "managing director",
   str "partner",
   str "advisor", str "adviser"]

/-- `CONTACT_SUBPAGES`: subpage paths crawled for contact info. -/
def CONTACT_SUBPAGES : List Str :=
  [str "/contact", str "/contact-us", str "/about", str "/about-us",
   str "/team", str "/our-team", str "/people", str "/leadership",
   str "/staff", str "/our-firm", str "/bio", str "/advisors"]

/-- `EXCLUDED_EMAIL_DOMAINS`. -/
def EXCLUDED_EMAIL_DOMAINS : List Str :=
  [str "sec.gov", str "finra.org", str "example.com", str "sampleemail.com",
   str "email.com", str "domain.com", str "yourcompany.com", str "company.com"]

/-- `EXCLUDED_EMAIL_PREFIXES`. -/
def EXCLUDED_EMAIL_PREFIXES : List Str :=
  [str "info@", str "support@", str "admin@", str "webmaster@", str "noreply@",
   str "no-reply@", str "sales@", str "marketing@", str "help@", str "contact@",
   str "hello@", str "office@", str "mail@", str "general@"]

/-- The static-asset extensions rejected for email domains. -/
def ASSET_EXTS : List Str :=
  [str ".png", str ".jpg", str ".gif", str ".svg", str ".css", str ".js"]

/-- `CORP_WORDS`. -/
def CORP_WORDS : List Str :=
  [str "LLC", str "INC", str "LTD", str "CORP", str "LP", str "LLP",
   str "THE", str "AND", str "GROUP"]

/-- `FALSE_NAME_WORDS`. -/
def FALSE_NAME_WORDS : List Str :=
  [str "CASH", str "ACCOUNT", str "ACCOUNTS", str "RESERVE", str "FUND",
   str "FUNDS", str "TRUST",
   str "CAPITAL", str "INVESTMENT", str "INVESTMENTS", str "ADVISORY",
   str "ADVISORS",
   str "ADVISERS", str "WEALTH", str "MANAGEMENT", str "FINANCIAL",
   str "SECURITIES",
   str "SERVICES", str "PORTFOLIO", str "ASSET", str "ASSETS", str "EQUITY",
   str "BOND", str "BONDS",
   str "MARKET", str "MARKETS", str "TRADING", str "RETIREMENT",
   str "PLANNING", str "BROKERAGE",
   str "BANKING", str "INSURANCE", str "COMPLIANCE", str "REGISTERED",
   str "PROGRAM", str "BANKS",
   str "BEST", str "HIGH", str "LOW", str "NET", str "WORTH", str "RATE",
   str "RATES", str "YIELD",
   str "PERFORMANCE", str "REPORT", str "RETURNS", str "INCOME",
   str "INTEREST", str "DEPOSIT",
   str "SAVINGS", str "CHECKING", str "CREDIT", str "DEBIT", str "LOAN",
   str "MORTGAGE",
   str "PREMIER", str "PREMIUM", str "BASIC", str "STANDARD",
   str "ADVANCED", str "SELECT",
   str "ABOUT", str "MORE", str "LEARN", str "VIEW", str "DETAILS",
   str "TERMS", str "PRIVACY",
   str "POLICY", str "CONTACT", str "HELP", str "SUPPORT", str "HOME",
   str "BACK", str "NEXT",
   str "WHO", str "WE", str "ARE", str "OUR", str "YOUR", str "MEET",
   str "WORK", str "WITH",
   str "HOW", str "WHY", str "WHAT", str "GET", str "STARTED", str "READY",
   str "FIRM"]

/-!
## The compiled regex patterns
-/

/-- Character class of the email local part `[a-zA-Z0-9._%+\-]`. -/
def emailLocalC (c : Char) : Bool :=
  c.isAlphanum || c = '.' || c = '_' || c = '%' || c = '+' || c = '-'

/-- Character class of the email domain part `[a-zA-Z0-9.\-]`. -/
def emailDomC (c : Char) : Bool := c.isAlphanum || c = '.' || c = '-'

/-- A single literal (case-sensitive) character. -/
def chRe (c : Char) : Re := .cls fun x => x = c

/-- A single literal character, case-insensitively (`re.IGNORECASE`). -/
def ciChRe (c : Char) : Re := .cls fun x => lowChar x = lowChar c

/-- Literal string pattern. -/
def litRe (s : String) : Re := s.data.foldr (fun c r => .cat (chRe c) r) .eps

/-- Case-insensitive literal string pattern. -/
def ciLitRe (s : String) : Re := s.data.foldr (fun c r => .cat (ciChRe c) r) .eps

/-- Ordered alternation of a list of branches (left branch preferred). -/
def altRe : List Re → Re
  | [] => .cls fun _ => false
  | [r] => r
  | r :: rs => .alt r (altRe rs)

/-- `\s`. -/
def wsC : Re := .cls isPySpace

/-- `\s*`. -/
def wsS : Re := .star wsC

/-- `\s+`. -/
def wsP : Re := Re.plus wsC

/-- `EMAIL_PATTERN = [a-zA-Z0-9._%+\-]+@[a-zA-Z0-9.\-]+\.[a-zA-Z]{2,}`. -/
def emailRe : Re :=
  .cat (Re.plus (.cls emailLocalC))
    (.cat (chRe '@')
      (.cat (Re.plus (.cls emailDomC))
        (.cat (chRe '.') (Re.rep2 (.cls Char.isAlpha)))))

/-- `[A-Z]` (case-sensitive). -/
def upAl : Re := .cls Char.isUpper

/-- `[a-z]+` (case-sensitive). -/
def lowAlP : Re := Re.plus (.cls Char.isLower)

/-- The common name core
`[A-Z][a-z]+(?:\s+[A-Z]\.?)?\s+[A-Z][a-z]+(?:\s+[A-Z][a-z]+)?`,
shared by `BIO_NAME_PATTERN` and `NAME_PATTERN`. -/
def nameCoreRe : Re :=
  .cat upAl (.cat lowAlP
    (.cat (Re.opt (.cat wsP (.cat upAl (Re.opt (chRe '.')))))
      (.cat wsP (.cat upAl (.cat lowAlP
        (Re.opt (.cat wsP (.cat upAl lowAlP))))))))

/-- A bio cue word followed by `\b`, e.g. `\s+is\b`. -/
def bioCue (w : String) : Re := .cat wsP (.cat (litRe w) .bnd)

/-- A bio cue verb with optional `s`, e.g. `\s+serves?\b`. -/
def bioCueS (w : String) : Re :=
  .cat wsP (.cat (litRe w) (.cat (Re.opt (chRe 's')) .bnd))

/-- `BIO_NAME_PATTERN` (anchored use only, via `.match`). -/
def bioNameRe : Re :=
  .cat (.grp 1 nameCoreRe)
    (altRe
      [bioCue "is", bioCue "has", bioCue "joined", bioCueS "serve",
       bioCueS "lead", bioCueS "bring", bioCue "founded", bioCueS "manage",
       bioCueS "oversee",
       .cat (chRe ',') wsC,
       .cat wsP (chRe '('),
       .cat wsP (.cat (chRe '–') wsC),
       .cat wsP (.cat (chRe '—') wsC)])

/-- `NAME_PATTERN = \b([A-Z][a-z]+(?:\s+[A-Z]\.?)?\s+[A-Z][a-z]+(?:\s+[A-Z][a-z]+)?)\b`. -/
def namePatRe : Re := .cat .bnd (.cat (.grp 1 nameCoreRe) .bnd)

/-- `TITLE_SEARCH_PATTERN` (IGNORECASE, no groups). -/
def titleSearchRe : Re :=
  altRe
    [ciLitRe "chief compliance officer", ciLitRe "cco", ciLitRe "principal",
     ciLitRe "managing member", ciLitRe "managing partner",
     ciLitRe "founder", ciLitRe "co-founder", ciLitRe "ceo",
     ciLitRe "president", ciLitRe "owner",
     ciLitRe "chief executive", ciLitRe "chief operating",
     ciLitRe "chief financial", ciLitRe "partner",
     ciLitRe "director", ciLitRe "managing director",
     ciLitRe "advisor", ciLitRe "adviser"]

/-- Two words joined with `\s+`, case-insensitively. -/
def w2Re (a b : String) : Re := .cat (ciLitRe a) (.cat wsP (ciLitRe b))

/-- The `(?:chief\s+)?(?:compliance\s+officer|executive\s+officer|...)`
head of `STANDALONE_TITLE_PATTERN`. -/
def chiefOfficerRe : Re :=
  .cat (Re.opt (.cat (ciLitRe "chief") wsP))
    (altRe [w2Re "compliance" "officer", w2Re "executive" "officer",
            w2Re "operating" "officer", w2Re "financial" "officer"])

/-- `head\s+of\s+\w+(?:\s+\w+)?`, case-insensitive (`\w` is caseless). -/
def headOfRe : Re :=
  .cat (ciLitRe "head") (.cat wsP (.cat (ciLitRe "of") (.cat wsP
    (.cat (Re.plus (.cls isWordChar))
      (Re.opt (.cat wsP (Re.plus (.cls isWordChar))))))))

/-- First alternation of `STANDALONE_TITLE_PATTERN`. -/
def standaloneHeadRe : Re :=
  altRe
    [chiefOfficerRe,
     ciLitRe "cco", ciLitRe "ceo", ciLitRe "coo", ciLitRe "cfo",
     ciLitRe "principal",
     .cat (ciLitRe "managing") (.cat wsP
       (altRe [ciLitRe "member", ciLitRe "partner", ciLitRe "director"])),
     .cat (ciLitRe "founder")
       (Re.opt (.cat wsS (.cat (.cls fun c => c = '&' || c = '+')
         (.cat wsS (altRe [w2Re "managing" "partner", ciLitRe "ceo",
                           ciLitRe "president"]))))),
     ciLitRe "co-founder", ciLitRe "president", ciLitRe "owner",
     ciLitRe "partner", ciLitRe "director",
     .cat (Re.opt (.cat (ciLitRe "senior") wsP))
       (altRe [ciLitRe "advisor", ciLitRe "adviser"]),
     headOfRe,
     w2Re "portfolio" "manager"]

/-- The alternation inside the starred compound tail of
`STANDALONE_TITLE_PATTERN`. -/
def standaloneTailRe : Re :=
  altRe
    [chiefOfficerRe,
     ciLitRe "cco", ciLitRe "ceo", ciLitRe "coo", ciLitRe "cfo",
     ciLitRe "principal",
     .cat (ciLitRe "managing") (.cat wsP
       (altRe [ciLitRe "member", ciLitRe "partner", ciLitRe "director"])),
     ciLitRe "founder", ciLitRe "president", ciLitRe "owner",
     ciLitRe "partner", ciLitRe "director",
     headOfRe,
     w2Re "portfolio" "manager"]

/-- `STANDALONE_TITLE_PATTERN` (IGNORECASE, anchored with `^...$`). -/
def standaloneTitleRe : Re :=
  .cat wsS (.cat standaloneHeadRe
    (.cat (.star (.cat wsS (.cat
        (.cls fun c => c = '&' || c = '+' || c = ',' || c = '/')
        (.cat wsS standaloneTailRe))))
      (.cat wsS .eol)))

/-- The `same_line_pattern` name part (IGNORECASE makes `[A-Z]`/`[a-z]`
both match any ASCII letter):
`([A-Z][a-z]+(?:\s+[A-Z]\.?)?\s+[A-Z][a-z]+)`. -/
def sameLineNameRe : Re :=
  .cat (.cls Char.isAlpha) (.cat (Re.plus (.cls Char.isAlpha))
    (.cat (Re.opt (.cat wsP (.cat (.cls Char.isAlpha) (Re.opt (chRe '.')))))
      (.cat wsP (.cat (.cls Char.isAlpha) (Re.plus (.cls Char.isAlpha))))))

/-- The `same_line_pattern` title alternation. -/
def sameLineTitleRe : Re :=
  .cat (Re.opt (.cat (ciLitRe "chief") wsP))
    (altRe
      [w2Re "compliance" "officer", ciLitRe "cco", ciLitRe "principal",
       .cat (ciLitRe "managing") (.cat wsP
         (altRe [ciLitRe "member", ciLitRe "partner", ciLitRe "director"])),
       ciLitRe "founder", ciLitRe "co-founder", ciLitRe "ceo",
       ciLitRe "president", ciLitRe "owner", ciLitRe "coo", ciLitRe "cfo",
       ciLitRe "partner", ciLitRe "director",
       .cat (ciLitRe "chief") (.cat wsP (ciLitRe "executive")),
       .cat (ciLitRe "chief") (.cat wsP (ciLitRe "operating")),
       .cat (ciLitRe "chief") (.cat wsP (ciLitRe "financial")),
       ciLitRe "advisor", ciLitRe "adviser"])

/-- `same_line_pattern` of Strategy B:
`\b(name)\s*[,|–—\-]\s*(title)` with IGNORECASE. -/
def sameLineRe : Re :=
  .cat .bnd (.cat (.grp 1 sameLineNameRe)
    (.cat wsS (.cat (.cls fun c => c = ',' || c = '|' || c = '–' || c = '—' || c = '-')
      (.cat wsS (.grp 2 sameLineTitleRe)))))

/-!
## Domain canonicalization: model of `urllib.parse` (CPython 3.11) restricted
to the fields `extract_domain` reads, and `extract_domain` itself.

Model notes: `urlsplit` left-strips C0-control/space characters, removes
tab/CR/LF everywhere, splits an initial scheme, and for `//` URLs takes the
netloc up to the first `/`, `?` or `#`.  A netloc containing `[` or `]` makes
CPython raise `ValueError` unless it is a well-formed bracketed IP literal;
the model rejects every bracketed netloc (the two behaviours agree on all
non-IP-literal inputs, and `extract_domain` catches the exception as `None`).
-/

/-- The WHATWG C0-control-or-space class stripped from the URL's start. -/
def isC0OrSpace (c : Char) : Bool := c.toNat ≤ 32

/-- The unsafe URL bytes removed everywhere (tab, CR, LF). -/
def isUnsafeUrl (c : Char) : Bool := c = '\t' || c = '\r' || c = '\n'

/-- CPython `scheme_chars`. -/
def schemeChar (c : Char) : Bool := c.isAlphanum || c = '+' || c = '-' || c = '.'

/-- CPython `uses_params`. -/
def usesParams : List Str :=
  [str "", str "ftp", str "hdl", str "prospero", str "http", str "imap",
   str "https", str "shttp", str "rtsp", str "rtsps", str "rtspu",
   str "sip", str "sips", str "mms", str "sftp", str "tel"]

/-- Split an initial `scheme:` if present and well-formed, returning
`(scheme lower-cased, rest)`; otherwise `([], url)`. -/
def schemeSplit (url : Str) : Str × Str :=
  if hasChar ':' url then
    if (!(url.takeWhile (· ≠ ':')).isEmpty && (url.headD ' ').isAlpha &&
        (url.takeWhile (· ≠ ':')).all schemeChar) = true
    then (pyLower (url.takeWhile (· ≠ ':')), (url.dropWhile (· ≠ ':')).tail)
    else ([], url)
  else ([], url)

/-- The prefix cleanup of `urlsplit`: left-strip C0-control/space, remove
tab/CR/LF everywhere. -/
def urlPreprocess (url0 : Str) : Str :=
  (url0.dropWhile isC0OrSpace).filter fun c => !(isUnsafeUrl c)

/-- Remove fragment then query, as `urlsplit` does on the tail. -/
def stripFragQuery (s : Str) : Str :=
  (s.takeWhile (· ≠ '#')).takeWhile (· ≠ '?')

/-- The netloc class: stop at the first `/`, `?` or `#`. -/
def netlocChar (c : Char) : Bool := !(c = '/' || c = '?' || c = '#')

/-- Model of `urlsplit` restricted to `(scheme, netloc, path)`;
`none` models a raised `ValueError`. -/
def urlsplitModel (url0 : Str) : Option (Str × Str × Str) :=
  if strStarts (str "//") (schemeSplit (urlPreprocess url0)).2 then
    if hasChar '[' (((schemeSplit (urlPreprocess url0)).2.drop 2).takeWhile netlocChar) ||
       hasChar ']' (((schemeSplit (urlPreprocess url0)).2.drop 2).takeWhile netlocChar)
    then none
    else some ((schemeSplit (urlPreprocess url0)).1,
      ((schemeSplit (urlPreprocess url0)).2.drop 2).takeWhile netlocChar,
      stripFragQuery (((schemeSplit (urlPreprocess url0)).2.drop 2).drop
        (((schemeSplit (urlPreprocess url0)).2.drop 2).takeWhile netlocChar).length))
  else some ((schemeSplit (urlPreprocess url0)).1, [],
    stripFragQuery (schemeSplit (urlPreprocess url0)).2)

/-- Model of `_splitparams` (first component). -/
def splitParams (path : Str) : Str :=
  if hasChar '/' path then
    if hasChar ';' ((path.reverse.takeWhile (· ≠ '/')).reverse) then
      (path.reverse.dropWhile (· ≠ '/')).reverse ++
        ((path.reverse.takeWhile (· ≠ '/')).reverse).takeWhile (· ≠ ';')
    else path
  else path.takeWhile (· ≠ ';')

/-- Model of `urlparse` restricted to `(netloc, path)`. -/
def urlparseNP (url : Str) : Option (Str × Str) :=
  match urlsplitModel url with
  | none => none
  | some (scheme, netloc, path) =>
    some (netloc,
      if scheme ∈ usesParams ∧ hasChar ';' path then splitParams path else path)

/-- The missing-data sentinels of `extract_domain` and
`_scrape_website_contacts`: `('nan', '', 'none')`. -/
def missingSentinels : List Str := [str "nan", str "", str "none"]

/-- The candidate domain picked from the parse:
`parsed.netloc or parsed.path.split('/')[0]`, lower-cased, one leading
`www.` stripped. -/
def domainFrom (netloc path : Str) : Str :=
  stripPre (str "www.")
    (pyLower (if netloc ≠ [] then netloc else (splitCh '/' path).headD []))

/-- `extract_domain(url)`: extract the bare domain from a website URL, or
`none` if invalid.  The argument `none` models Python `None`. -/
def extract_domain (url : Option Str) : Option Str :=
  match url with
  | none => none
  | some u0 =>
    if u0 = [] ∨ pyStrip (pyLower u0) ∈ missingSentinels then none
    else
      match urlparseNP (if strStarts (str "http") (pyStrip u0) then pyStrip u0
                        else str "https://" ++ pyStrip u0) with
      | none => none
      | some (netloc, path) =>
        if hasChar '.' (domainFrom netloc path) then some (domainFrom netloc path)
        else none

/-!
## Data model

A parsed page (BeautifulSoup document) is abstracted by the features the
module reads: the `href` values of its `<a href=...>` tags in document
order, its text fragments (`get_text(separator=X)` is the fragments joined
with `X`), and, for each of the seven fixed CSS selectors of Strategy C in
order, the list of matching cards, each itself carrying text fragments.
-/

/-- A card returned by one of Strategy C's CSS selectors. -/
structure Card where
  texts : List Str
deriving DecidableEq, Repr

/-- A parsed HTML document. -/
structure Doc where
  anchors : List Str
  texts : List Str
  cards : List (List Card)
deriving DecidableEq, Repr

/-- `soup.get_text(separator=sep)`. -/
def getText (sep : Str) (texts : List Str) : Str := List.intercalate sep texts

/-- A contact candidate.  Website-scraped candidates carry only
`name`/`email`/`title`/`source`; the remaining fields default to the values
Python's `dict.get` fallbacks produce for them. -/
structure Candidate where
  name : Str := []
  email : Str := []
  title : Str := []
  source : Str := []
  confidence : Int := 0
  seniority : Str := []
  department : Str := []
  phone : Str := []
  linkedin : Str := []
  verified : Str := []
deriving DecidableEq, Repr

/-- The merged contact produced by `_select_best_contact`. -/
structure Contact where
  name : Str := []
  email : Str := []
  title : Str := []
  phone : Str := []
  linkedin : Str := []
deriving DecidableEq, Repr

/-- The record returned by `enrich_contact`. -/
structure EnrichOut where
  contact_name : Str := []
  contact_email : Str := []
  contact_title : Str := []
  contact_phone : Str := []
  contact_linkedin : Str := []
deriving DecidableEq, Repr

/-!
## `_extract_emails_from_soup`
-/

/-- Process one `mailto:` href into the lower-cased address candidate:
`href[7:].split('?')[0].strip()`, then `%20` and `+` removed, stripped and
lower-cased. -/
def mailtoAddr (href : Str) : Str :=
  let raw0 := pyStrip ((href.drop 7).takeWhile (· ≠ '?'))
  let raw := pyStrip (pyRemove (str "+") (pyRemove (str "%20") raw0))
  pyLower raw

/-- The mailto phase of the harvester: fold over the anchors, adding each
well-formed lower-cased address to the set. -/
def mailtoFold (anchors : List Str) : List Str :=
  anchors.foldl
    (fun acc href =>
      if strStarts (str "mailto:") (pyLower href) then
        let email := mailtoAddr href
        if reFullmatchB emailRe email then addUniq acc email else acc
      else acc)
    []

/-- The text-regex phase: every `EMAIL_PATTERN` match over the visible text,
lower-cased, added to the set. -/
def textFold (found : List Str) (text : Str) : List Str :=
  (reFindAll emailRe text).foldl (fun acc m => addUniq acc (pyLower m)) found

/-- `email.split('@')[1] if '@' in email else ''`. -/
def emailDomainOf (e : Str) : Str :=
  if hasChar '@' e then (splitCh '@' e).getD 1 [] else []

/-- The harvester's exclusion filter (domain exclusion set, generic
role-prefix set, static-asset extensions). -/
def keepEmail (e : Str) : Bool :=
  let d := emailDomainOf e
  !(decide (d ∈ EXCLUDED_EMAIL_DOMAINS)) &&
  !(EXCLUDED_EMAIL_PREFIXES.any fun p => strStarts p e) &&
  !(ASSET_EXTS.any fun x => strEnds x d)

/-- Sort key of the harvester: `(0 if domain in e else 1, e)` compared as a
Python tuple. -/
def emailKeyLt (domain a b : Str) : Bool :=
  let fa : Nat := if occursIn domain a then 0 else 1
  let fb : Nat := if occursIn domain b then 0 else 1
  if fa < fb then true
  else if fa = fb then strLtB a b
  else false

/-- Stable sort by a strict order (model of Python `list.sort(key=...)`):
`insertionSort` by the non-strict order `¬ lt b a` is stable and sorted, and
a stable sort by a total preorder is unique, so this is extensionally
Python's sort. -/
def pySortStr (lt : Str → Str → Bool) (l : List Str) : List Str :=
  l.insertionSort fun a b => lt b a = false

/-- `_extract_emails_from_soup(soup, domain)`: mailto links and regex over
visible text, exclusion filter, then domain-matching-first sort. -/
def extract_emails_from_soup (doc : Doc) (domain : Option Str) : List Str :=
  let found := textFold (mailtoFold doc.anchors) (getText (str " ") doc.texts)
  let filtered := found.filter keepEmail
  match domain with
  | some d => if d ≠ [] then pySortStr (emailKeyLt d) filtered else filtered
  | none => filtered

/-!
## `_is_valid_person_name`
-/

/-- `_is_valid_person_name(name)`. -/
def is_valid_person_name (name : Str) : Bool :=
  if name = [] || name.length < 4 || name.length > 50 then false
  else
    let name_words := pyWords (pyUpper name)
    if name_words.length < 2 then false
    else if CORP_WORDS.any (fun w => name_words.any (· = w)) then false
    else if name_words.any (fun w => FALSE_NAME_WORDS.any (· = w)) then false
    else true

/-!
## `_extract_contacts_from_soup`
-/

/-- Make a website-scraped candidate (the dicts built by the strategies). -/
def mkWebCand (name email title : Str) : Candidate :=
  { name := name, email := email, title := title, source := str "website" }

/-- The stripped lines of the document text used by Strategies A and B:
`soup.get_text(separator='\n').split('\n')`, each line stripped. -/
def docStrippedLines (doc : Doc) : List Str :=
  (splitCh '\n' (getText (str "\n") doc.texts)).map pyStrip

/-- Strategy A at one title line: scan the following window of 9 lines for
the first non-empty line, try the bio-name pattern on it, and validate. -/
def strategyAWindow (title_found : Str) (window : List Str) : List Candidate :=
  match window.find? (fun l => !l.isEmpty) with
  | none => []
  | some next_line =>
    match reMatchSt bioNameRe next_line with
    | none => []
    | some st =>
      if is_valid_person_name (pyStrip st.g1) then
        [mkWebCand (pyStrip st.g1) [] (pyTitle title_found)]
      else []

/-- Strategy A: a standalone title line (length at most 80, matching
`STANDALONE_TITLE_PATTERN`) followed within 10 lines by a bio opening with a
person name. -/
def strategyA (stripped : List Str) : List Candidate :=
  stripped.enum.flatMap fun li =>
    if li.2.isEmpty then []
    else if li.2.length > 80 then []
    else if !(reMatchB standaloneTitleRe li.2) then []
    else strategyAWindow (pyStrip li.2) ((stripped.drop (li.1 + 1)).take 9)

/-- Strategy B: `"Name, Title"` on one line via `same_line_pattern.search`. -/
def strategyB (stripped : List Str) : List Candidate :=
  stripped.flatMap fun line =>
    match reSearch sameLineRe line with
    | none => []
    | some st =>
      if is_valid_person_name (pyStrip st.g1) then
        [mkWebCand (pyStrip st.g1) [] (pyTitle (pyStrip st.g2))]
      else []

/-- The first eligible standalone-title line of a card, with its index:
long lines are skipped, and the scan stops at the first match. -/
def firstTitledLine (card_lines : List Str) : Option (Nat × Str) :=
  card_lines.enum.find? fun ci =>
    decide (ci.2.length ≤ 80) && reMatchB standaloneTitleRe ci.2

/-- Try the name pattern at card line `ni` (skipping out-of-range indices),
as one step of the `[-1, 1, -2, 2]` offset scan. -/
def cardNameAt (card_lines : List Str) (ni : Int) : Option Str :=
  if 0 ≤ ni ∧ ni < card_lines.length then
    match reMatchSt namePatRe (card_lines.getD ni.toNat []) with
    | none => none
    | some st => if is_valid_person_name st.g1 then some st.g1 else none
  else none

/-- Part 1 of Strategy C on one card: standalone title line plus a valid
name on an adjacent line (offsets -1, 1, -2, 2; first hit wins). -/
def strategyCPart1 (card_lines : List Str) : List Candidate :=
  match firstTitledLine card_lines with
  | none => []
  | some (ci, cline) =>
    match (cardNameAt card_lines ((ci : Int) - 1)).orElse fun _ =>
        ((cardNameAt card_lines ((ci : Int) + 1)).orElse fun _ =>
        ((cardNameAt card_lines ((ci : Int) - 2)).orElse fun _ =>
        cardNameAt card_lines ((ci : Int) + 2))) with
    | none => []
    | some nm => [mkWebCand (pyStrip nm) [] (pyTitle cline)]

/-- Part 2 of Strategy C on one card: first name match and first title-phrase
match anywhere in the card text, skipping names already collected. -/
def strategyCPart2 (acc : List Candidate) (card_text : Str) : List Candidate :=
  match reFindAllG1 namePatRe card_text, reFindAll titleSearchRe card_text with
  | nm0 :: _, t0 :: _ =>
    if is_valid_person_name (pyStrip nm0) then
      if acc.any (fun c => c.name = pyStrip nm0) then []
      else [mkWebCand (pyStrip nm0) [] (pyTitle (pyStrip t0))]
    else []
  | _, _ => []

/-- Strategy C over all selector results, carrying the accumulated contact
list (part 2's duplicate check reads it). -/
def strategyC (cards : List (List Card)) (prior : List Candidate) : List Candidate :=
  cards.foldl
    (fun acc cardList =>
      (cardList.take 10).foldl
        (fun acc2 card =>
          let card_text := getText (str "\n") card.texts
          let card_lines := ((splitCh '\n' card_text).map pyStrip).filter
            fun l => !l.isEmpty
          let acc3 := acc2 ++ strategyCPart1 card_lines
          acc3 ++ strategyCPart2 acc3 card_text)
        acc)
    prior

/-- The email-assignment pass: attach the first harvested email whose local
part contains a name token longer than 2 characters. -/
def assignEmail (emails : List Str) (c : Candidate) : Candidate :=
  if !c.email.isEmpty then c
  else if (pyWords (pyLower c.name)).isEmpty then c
  else
    match emails.find? (fun email =>
      (pyWords (pyLower c.name)).any fun part =>
        decide (part.length > 2) &&
          occursIn part (pyLower ((splitCh '@' email).headD []))) with
    | some email => { c with email := email }
    | none => c

/-- The strategy phase of `_extract_contacts_from_soup`: Strategy A, then B,
then C (C reads the accumulated list for its duplicate check). -/
def contactsPhase (doc : Doc) : List Candidate :=
  strategyC doc.cards
    (strategyA (docStrippedLines doc) ++ strategyB (docStrippedLines doc))

/-- `_extract_contacts_from_soup(soup, domain)`. -/
def extract_contacts_from_soup (doc : Doc) (domain : Option Str) : List Candidate :=
  if !(extract_emails_from_soup doc domain).isEmpty ∧ (contactsPhase doc).isEmpty then
    (contactsPhase doc).map (assignEmail (extract_emails_from_soup doc domain)) ++
      ((extract_emails_from_soup doc domain).take 3).map fun email =>
        mkWebCand [] email []
  else (contactsPhase doc).map (assignEmail (extract_emails_from_soup doc domain))

/-!
## DirectoryClient models

The HTTP layer is an oracle: `none` models any transport failure or
non-200 status (all of which the code maps to an empty result), `some
entries` a 200 response whose parsed `data.emails` list is `entries`.
-/

/-- One entry of the Hunter.io domain-search response, after JSON access:
`none` fields model absent/null JSON values. -/
structure HunterEntry where
  first_name : Option Str := none
  last_name : Option Str := none
  value : Option Str := none
  position : Option Str := none
  confidence : Option Int := none
  seniority : Option Str := none
  department : Option Str := none
  phone_number : Option Str := none
  linkedin : Option Str := none
  verification_status : Option Str := none
deriving DecidableEq, Repr

/-- Python `x or ''` for an optional string (`None` and `''` both map to `''`). -/
def orEmpty (x : Option Str) : Str := x.getD []

/-- Python `x or 0`. -/
def orZero (x : Option Int) : Int := x.getD 0

/-- `_hunter_domain_search(domain, api_key)` given the response oracle:
translate each response entry into a Candidate.  No validation or filtering
is applied to the returned fields. -/
def hunter_domain_search (resp : Option (List HunterEntry))
    (domain api_key : Str) : List Candidate :=
  if domain.isEmpty || api_key.isEmpty then []
  else
    match resp with
    | none => []
    | some entries =>
      entries.map fun entry =>
        let first := pyStrip (orEmpty entry.first_name)
        let last := pyStrip (orEmpty entry.last_name)
        let name := if !first.isEmpty || !last.isEmpty
                    then pyStrip (first ++ [' '] ++ last) else []
        { name := name,
          email := orEmpty entry.value,
          title := orEmpty entry.position,
          source := str "hunter.io",
          confidence := orZero entry.confidence,
          seniority := orEmpty entry.seniority,
          department := orEmpty entry.department,
          phone := orEmpty entry.phone_number,
          linkedin := orEmpty entry.linkedin,
          verified := orEmpty entry.verification_status }

/-- The record returned by the Email Finder endpoint (all-empty models the
empty dict returned on failure). -/
structure FinderRes where
  email : Str := []
  confidence : Int := 0
  phone : Str := []
  linkedin : Str := []
  verified : Str := []
deriving DecidableEq, Repr

/-- `_hunter_email_finder(domain, first_name, last_name, api_key)` given the
response oracle (the oracle's `email` field is empty on failure, matching
the code's `data.get('email') or ''` followed by the emptiness check). -/
def hunter_email_finder (resp : Str → Str → Str → FinderRes)
    (domain first_name last_name api_key : Str) : FinderRes :=
  if domain.isEmpty || api_key.isEmpty || last_name.isEmpty then {}
  else
    let r := resp domain first_name last_name
    if r.email.isEmpty then {} else r

/-!
## `_select_best_contact`
-/

/-- `_seniority_rank(seniority)`. -/
def seniority_rank (seniority : Str) : Nat :=
  let s := pyLower seniority
  if s = str "executive" then 0
  else if s = str "senior" then 1
  else if s = str "management" then 2
  else 5

/-- The inner `_title_rank`: index of the first `TITLE_PRIORITY` entry
occurring as a substring of the lower-cased, stripped title; 999 if none. -/
def titleRankGo (t : Str) : Nat → List Str → Nat
  | _, [] => 999
  | i, p :: ps => if occursIn p t then i else titleRankGo t (i + 1) ps

/-- `_title_rank(title)` of `_select_best_contact`. -/
def title_rank (title : Str) : Nat :=
  titleRankGo (pyStrip (pyLower title)) 0 TITLE_PRIORITY

/-- The sort key of the best-named selection:
`(_title_rank(title), _seniority_rank(seniority), hunter-first, -confidence)`. -/
def namedKey (c : Candidate) : Nat × Nat × Nat × Int :=
  (title_rank c.title, seniority_rank c.seniority,
   if c.source = str "hunter.io" then 0 else 1, -c.confidence)

/-- Python tuple `<` on the sort key. -/
def namedKeyLt (a b : Nat × Nat × Nat × Int) : Bool :=
  if a.1 < b.1 then true else if a.1 > b.1 then false
  else if a.2.1 < b.2.1 then true else if a.2.1 > b.2.1 then false
  else if a.2.2.1 < b.2.2.1 then true else if a.2.2.1 > b.2.2.1 then false
  else decide (a.2.2.2 < b.2.2.2)

/-- Stable insertion into a candidate list sorted by `namedKey`. -/
def insCand (x : Candidate) : List Candidate → List Candidate
  | [] => [x]
  | y :: ys => if namedKeyLt (namedKey x) (namedKey y) then x :: y :: ys
               else y :: insCand x ys

/-- Stable sort of the named candidates (model of `named.sort(key=...)`). -/
def sortNamed (l : List Candidate) : List Candidate :=
  l.foldl (fun acc x => insCand x acc) []

/-- The best-email scan (step 2): prefer an email attached to the best-named
contact (stopping there), else the first email, upgrading to a later
verified one while the current is unverified. -/
def bestEmailGo (best_named : Option Candidate) :
    List Candidate → Str → Option Candidate → Str × Option Candidate
  | [], be, bec => (be, bec)
  | c :: cs, be, bec =>
    let email := pyStrip c.email
    if email.isEmpty then bestEmailGo best_named cs be bec
    else if (match best_named with
             | some bn => decide (c.name = bn.name)
             | none => false) then (email, some c)
    else if be.isEmpty then bestEmailGo best_named cs email (some c)
    else if c.verified = str "valid" ∧
            ((match bec with | some b => b.verified | none => []) ≠ str "valid")
    then bestEmailGo best_named cs email (some c)
    else bestEmailGo best_named cs be bec

/-- The phone/linkedin collection (step 3): first non-empty phone and first
non-empty linkedin over best-named, best-email-candidate, then all
candidates. -/
def phoneLinkGo : List (Option Candidate) → Str × Str → Str × Str
  | [], pl => pl
  | none :: rest, pl => phoneLinkGo rest pl
  | some c :: rest, (p, l) =>
    let p2 := if p.isEmpty ∧ !c.phone.isEmpty then c.phone else p
    let l2 := if l.isEmpty ∧ !c.linkedin.isEmpty then c.linkedin else l
    phoneLinkGo rest (p2, l2)

/-- `_select_best_contact(candidates)`. -/
def select_best_contact (candidates : List Candidate) : Contact :=
  if candidates.isEmpty then {}
  else
    let named := candidates.filter fun c => !c.name.isEmpty
    let best_named : Option Candidate :=
      if named.isEmpty then none else (sortNamed named).head?
    let (best_email, best_email_candidate) :=
      bestEmailGo best_named candidates [] none
    let (phone, linkedin) :=
      phoneLinkGo ([best_named, best_email_candidate] ++ candidates.map some)
        ([], [])
    match best_named with
    | some bn =>
      { name := pyStrip bn.name,
        email := if !(pyStrip bn.email).isEmpty then pyStrip bn.email
                 else best_email,
        title := pyStrip bn.title,
        phone := phone, linkedin := linkedin }
    | none =>
      if !best_email.isEmpty then
        { email := best_email, phone := phone, linkedin := linkedin }
      else {}

/-!
## `_scrape_website_contacts` and `enrich_contact`

Network effects are oracles: `fetch` maps a URL to a parsed page or a
fetch failure, `ord` fixes the (unspecified) Python set iteration order of
the discovered subpages, and `join` models `urllib.parse.urljoin` (only used
to resolve discovered link targets; no claim depends on its algebra).
Each function also returns the list of URLs it fetched
(respectively the targeted-lookup calls it issued), so that "no network
call happens" is a provable statement.
-/

/-- The subpage-discovery fold over the homepage anchors. -/
def discoverSubpages (join : Str → Str → Str) (url : Str)
    (anchors : List Str) : List Str :=
  anchors.foldl
    (fun acc href =>
      let h := pyStrip (pyLower href)
      if CONTACT_SUBPAGES.any (fun sp => occursIn (lstripSlash sp) h) then
        addUniq acc (rstripSlash (join url href))
      else acc)
    []

/-- The subpage crawl loop: skip already-fetched URLs, stop after 6
successful fetches, accumulate contacts and the fetch log. -/
def crawlSubpages (fetch : Str → Option Doc) (domain : Option Str) :
    List Str → List Str → Nat → List Candidate → List Str →
    List Candidate × List Str
  | [], _, _, contacts, log => (contacts, log)
  | sub_url :: rest, fetched, count, contacts, log =>
    if sub_url ∈ fetched then
      crawlSubpages fetch domain rest fetched count contacts log
    else if count ≥ 6 then (contacts, log)
    else
      match fetch sub_url with
      | some sub_soup =>
        crawlSubpages fetch domain rest (fetched ++ [sub_url]) (count + 1)
          (contacts ++ extract_contacts_from_soup sub_soup domain)
          (log ++ [sub_url])
      | none =>
        crawlSubpages fetch domain rest fetched count contacts
          (log ++ [sub_url])

/-- `_scrape_website_contacts(website_url)`: returns the contact list and
the list of URLs passed to the page fetcher. -/
def scrape_website_contacts (fetch : Str → Option Doc)
    (ord : List Str → List Str) (join : Str → Str → Str)
    (website_url : Option Str) : List Candidate × List Str :=
  match website_url with
  | none => ([], [])
  | some w =>
    if w = [] ∨ pyStrip (pyLower w) ∈ missingSentinels then ([], [])
    else
      let url0 := pyStrip w
      let url1 := if strStarts (str "http") url0 then url0
                  else str "https://" ++ url0
      let domain := extract_domain website_url
      let tryHome :=
        match fetch url1 with
        | some s => (some s, url1, [url1])
        | none =>
          if strStarts (str "https://") url1 then
            let url2 := str "http://" ++ url1.drop 8
            (fetch url2, url2, [url1, url2])
          else (none, url1, [url1])
      match tryHome with
      | (none, _, log) => ([], log)
      | (some soup, url, log) =>
        let fetched := [rstripSlash url]
        let homeContacts := extract_contacts_from_soup soup domain
        let discovered := discoverSubpages join url soup.anchors
        let base := rstripSlash url
        let discovered2 := CONTACT_SUBPAGES.foldl
          (fun acc sp => addUniq acc (base ++ sp)) discovered
        crawlSubpages fetch domain (ord discovered2) fetched 0 homeContacts log

/-- The hunter phase of `enrich_contact` (Method 1): Directory candidates,
requested only with an API key and a non-empty extracted domain. -/
def enrichHunterCands (hunterResp : Str → Option (List HunterEntry))
    (domain : Option Str) (key : Str) : List Candidate :=
  match domain with
  | some d =>
    if !key.isEmpty ∧ !d.isEmpty then hunter_domain_search (hunterResp d) d key
    else []
  | none => []

/-- The candidate pool `enrich_contact` merges: Directory candidates followed
by website-scraped candidates. -/
def mergedCands (fetch : Str → Option Doc) (ord : List Str → List Str)
    (join : Str → Str → Str) (hunterResp : Str → Option (List HunterEntry))
    (website_url : Option Str) (hunter_api_key : Option Str) : List Candidate :=
  enrichHunterCands hunterResp (extract_domain website_url)
      (hunter_api_key.getD []) ++
    (scrape_website_contacts fetch ord join website_url).1

/-- Method 3 of `enrich_contact`: the targeted Email Finder backfill applied
to the merged best contact, also returning the lookup calls issued. -/
def enrichStep3 (finderResp : Str → Str → Str → FinderRes) :
    Option Str → Str → Contact → Contact × List (Str × Str × Str)
  | none, _, best => (best, [])
  | some d, key, best =>
    if !key.isEmpty ∧ !d.isEmpty ∧ !best.name.isEmpty ∧ best.email.isEmpty then
      if (pyWords best.name).length ≥ 2 then
        if !(hunter_email_finder finderResp d ((pyWords best.name).headD [])
            ((pyWords best.name).getLastD []) key).email.isEmpty then
          ({ best with
              email := (hunter_email_finder finderResp d
                ((pyWords best.name).headD [])
                ((pyWords best.name).getLastD []) key).email,
              phone := if best.phone.isEmpty ∧
                  !(hunter_email_finder finderResp d
                    ((pyWords best.name).headD [])
                    ((pyWords best.name).getLastD []) key).phone.isEmpty
                then (hunter_email_finder finderResp d
                  ((pyWords best.name).headD [])
                  ((pyWords best.name).getLastD []) key).phone
                else best.phone,
              linkedin := if best.linkedin.isEmpty ∧
                  !(hunter_email_finder finderResp d
                    ((pyWords best.name).headD [])
                    ((pyWords best.name).getLastD []) key).linkedin.isEmpty
                then (hunter_email_finder finderResp d
                  ((pyWords best.name).headD [])
                  ((pyWords best.name).getLastD []) key).linkedin
                else best.linkedin },
           [(d, (pyWords best.name).headD [], (pyWords best.name).getLastD [])])
        else (best, [(d, (pyWords best.name).headD [],
          (pyWords best.name).getLastD [])])
      else (best, [])
    else (best, [])

/-- `enrich_contact(website_url, hunter_api_key)`: the full engine.  Returns
the output record and the list of `(domain, first, last)` arguments of the
targeted Email Finder calls it issued. -/
def enrich_contact (fetch : Str → Option Doc) (ord : List Str → List Str)
    (join : Str → Str → Str)
    (hunterResp : Str → Option (List HunterEntry))
    (finderResp : Str → Str → Str → FinderRes)
    (website_url : Option Str) (hunter_api_key : Option Str) :
    EnrichOut × List (Str × Str × Str) :=
  let step3 := enrichStep3 finderResp (extract_domain website_url)
    (hunter_api_key.getD [])
    (select_best_contact
      (mergedCands fetch ord join hunterResp website_url hunter_api_key))
  ({ contact_name := step3.1.name, contact_email := step3.1.email,
     contact_title := step3.1.title, contact_phone := step3.1.phone,
     contact_linkedin := step3.1.linkedin }, step3.2)

/-!
## Character and basic string lemmas
-/

theorem char_toNat_ofNat (n : Nat) (h : n.isValidChar) : (Char.ofNat n).toNat = n := by
  simp [Char.ofNat, Char.ofNatAux, dif_pos h, Char.toNat, UInt32.toNat]

theorem isUpper_iff (c : Char) : c.isUpper = true ↔ 65 ≤ c.toNat ∧ c.toNat ≤ 90 := by
  simp only [Char.isUpper, Bool.and_eq_true, decide_eq_true_eq, Char.toNat,
    UInt32.le_def, BitVec.le_def]
  exact ⟨fun ⟨h1, h2⟩ => ⟨h1, h2⟩, fun ⟨h1, h2⟩ => ⟨h1, h2⟩⟩

theorem isLower_iff (c : Char) : c.isLower = true ↔ 97 ≤ c.toNat ∧ c.toNat ≤ 122 := by
  simp only [Char.isLower, Bool.and_eq_true, decide_eq_true_eq, Char.toNat,
    UInt32.le_def, BitVec.le_def]
  exact ⟨fun ⟨h1, h2⟩ => ⟨h1, h2⟩, fun ⟨h1, h2⟩ => ⟨h1, h2⟩⟩

theorem lowChar_of_not_upper {c : Char} (h : c.isUpper = false) : lowChar c = c := by
  unfold lowChar Char.toLower
  rw [if_neg]
  intro hc
  rw [show c.isUpper = true from (isUpper_iff c).mpr ⟨hc.1, hc.2⟩] at h
  cases h

theorem lowChar_toNat_of_upper {c : Char} (h : c.isUpper = true) :
    (lowChar c).toNat = c.toNat + 32 := by
  have hb := (isUpper_iff c).mp h
  have hv : (c.toNat + 32).isValidChar := Or.inl (by omega)
  unfold lowChar Char.toLower
  rw [if_pos ⟨hb.1, hb.2⟩]
  exact char_toNat_ofNat _ hv

theorem lowChar_isLower_of_upper {c : Char} (h : c.isUpper = true) :
    (lowChar c).isLower = true := by
  have hb := (isUpper_iff c).mp h
  rw [isLower_iff, lowChar_toNat_of_upper h]
  omega

theorem lowChar_isUpper (c : Char) : (lowChar c).isUpper = false := by
  cases hu : c.isUpper with
  | false => rw [lowChar_of_not_upper hu]; exact hu
  | true =>
    have := (isUpper_iff c).mp hu
    cases h2 : (lowChar c).isUpper with
    | false => rfl
    | true =>
      have h3 := (isUpper_iff _).mp h2
      rw [lowChar_toNat_of_upper hu] at h3
      omega

theorem char_eq_iff_toNat {c d : Char} : c = d ↔ c.toNat = d.toNat :=
  ⟨fun h => h ▸ rfl, fun h => Char.eq_of_val_eq (UInt32.toNat.inj h)⟩

theorem emailLocalC_low {c : Char} (h : emailLocalC c = true) :
    emailLocalC (lowChar c) = true := by
  cases hu : c.isUpper with
  | false => rw [lowChar_of_not_upper hu]; exact h
  | true =>
    have hl := lowChar_isLower_of_upper hu
    simp [emailLocalC, Char.isAlphanum, Char.isAlpha, hl]

theorem emailDomC_low {c : Char} (h : emailDomC c = true) :
    emailDomC (lowChar c) = true := by
  cases hu : c.isUpper with
  | false => rw [lowChar_of_not_upper hu]; exact h
  | true =>
    have hl := lowChar_isLower_of_upper hu
    simp [emailDomC, Char.isAlphanum, Char.isAlpha, hl]

theorem isAlpha_low {c : Char} (h : c.isAlpha = true) :
    (lowChar c).isAlpha = true := by
  cases hu : c.isUpper with
  | false => rw [lowChar_of_not_upper hu]; exact h
  | true =>
    have hl := lowChar_isLower_of_upper hu
    simp [Char.isAlpha, hl]

theorem atChar_low {d : Char} (hd : d.isUpper = false) {c : Char}
    (h : decide (c = d) = true) : decide (lowChar c = d) = true := by
  have hc : c = d := of_decide_eq_true h
  subst hc
  simp [lowChar_of_not_upper hd]

theorem pyLower_fix {s : Str} (h : ∀ c ∈ s, c.isUpper = false) : pyLower s = s := by
  induction s with
  | nil => rfl
  | cons c t ih =>
    simp only [pyLower, List.map_cons]
    rw [lowChar_of_not_upper (h c (List.mem_cons_self c t))]
    have := ih fun x hx => h x (List.mem_cons_of_mem c hx)
    simpa [pyLower] using this

theorem mem_addUniq {l : List Str} {x e : Str} :
    e ∈ addUniq l x ↔ e ∈ l ∨ e = x := by
  unfold addUniq
  split
  · constructor
    · exact fun h => Or.inl h
    · rintro (h | rfl)
      · exact h
      · assumption
  · simp

theorem foldl_inv {α β : Type} (step : α → β → α) (P : α → Prop)
    (h : ∀ a b, P a → P (step a b)) :
    ∀ (l : List β) (a : α), P a → P (l.foldl step a) := by
  intro l
  induction l with
  | nil => intro a ha; exact ha
  | cons b t ih => intro a ha; exact ih _ (h a b ha)

theorem splitCh_headD (c : Char) (s : Str) :
    (splitCh c s).headD [] = s.takeWhile (· ≠ c) := by
  induction s with
  | nil => rfl
  | cons x xs ih =>
    simp only [splitCh, List.takeWhile_cons]
    by_cases hx : x = c
    · simp [hx]
    · simp only [if_neg hx, List.headD_cons]
      rw [if_pos (by simpa using hx)]
      rw [← ih]

/-!
## Declarative regex semantics and matcher soundness
-/

/-- `Matches re s`: the regex `re` can match exactly the string `s`.
This is the declarative reading of the pattern grammar (the word-boundary
`bnd` is context-dependent and has no clause; soundness below is stated for
boundary-free patterns such as `EMAIL_PATTERN`). -/
inductive Matches : Re → Str → Prop where
  | eps : Matches .eps []
  | cls {p : Char → Bool} {c : Char} (h : p c = true) : Matches (.cls p) [c]
  | cat {a b : Re} {s t : Str} (ha : Matches a s) (hb : Matches b t) :
      Matches (.cat a b) (s ++ t)
  | altL {a b : Re} {s : Str} (h : Matches a s) : Matches (.alt a b) s
  | altR {a b : Re} {s : Str} (h : Matches b s) : Matches (.alt a b) s
  | starNil {a : Re} : Matches (.star a) []
  | starCons {a : Re} {s t : Str} (h : Matches a s) (hr : Matches (.star a) t) :
      Matches (.star a) (s ++ t)
  | grp {n : Nat} {a : Re} {s : Str} (h : Matches a s) : Matches (.grp n a) s
  | eol : Matches .eol []

/-- Boundary-free regexes (`EMAIL_PATTERN` is one). -/
def bndFree : Re → Bool
  | .bnd => false
  | .cat a b => bndFree a && bndFree b
  | .alt a b => bndFree a && bndFree b
  | .star a => bndFree a
  | .grp _ a => bndFree a
  | _ => true

/-- Soundness of the backtracking matcher: every result state consumed a
prefix that the regex matches declaratively. -/
theorem matchList_sound : ∀ (fuel : Nat) (re : Re) (st st2 : MSt),
    bndFree re = true → st2 ∈ matchList fuel re st →
    ∃ pre, st.s = pre ++ st2.s ∧ Matches re pre := by
  intro fuel
  induction fuel with
  | zero => intro re st st2 _ h; simp [matchList] at h
  | succ fuel ih =>
    intro re st st2 hb h
    cases re with
    | eps =>
      simp only [matchList, List.mem_singleton] at h
      exact ⟨[], by simp [h], Matches.eps⟩
    | cls p =>
      simp only [matchList] at h
      cases hs : st.s with
      | nil => rw [hs] at h; simp at h
      | cons c rest =>
        rw [hs] at h
        replace h : st2 ∈ (if p c = true then
            [{ s := rest, prev := some c, g1 := st.g1, g2 := st.g2 : MSt }]
          else []) := h
        by_cases hp : p c = true
        · rw [if_pos hp] at h
          simp only [List.mem_singleton] at h
          refine ⟨[c], by simp [h], Matches.cls hp⟩
        · rw [if_neg hp] at h; simp at h
    | cat a b =>
      simp only [bndFree, Bool.and_eq_true] at hb
      simp only [matchList, List.mem_flatMap] at h
      obtain ⟨mid, hmid, hst2⟩ := h
      obtain ⟨p1, hp1, m1⟩ := ih a st mid hb.1 hmid
      obtain ⟨p2, hp2, m2⟩ := ih b mid st2 hb.2 hst2
      exact ⟨p1 ++ p2, by rw [hp1, hp2, List.append_assoc], Matches.cat m1 m2⟩
    | alt a b =>
      simp only [bndFree, Bool.and_eq_true] at hb
      simp only [matchList, List.mem_append] at h
      cases h with
      | inl h =>
        obtain ⟨p, hp, m⟩ := ih a st st2 hb.1 h
        exact ⟨p, hp, Matches.altL m⟩
      | inr h =>
        obtain ⟨p, hp, m⟩ := ih b st st2 hb.2 h
        exact ⟨p, hp, Matches.altR m⟩
    | star a =>
      simp only [bndFree] at hb
      simp only [matchList, List.mem_append, List.mem_flatMap,
        List.mem_filter] at h
      cases h with
      | inl h =>
        obtain ⟨mid, ⟨hmid, _⟩, hst2⟩ := h
        obtain ⟨p1, hp1, m1⟩ := ih a st mid hb hmid
        obtain ⟨p2, hp2, m2⟩ := ih (.star a) mid st2 (by simpa [bndFree] using hb) hst2
        exact ⟨p1 ++ p2, by rw [hp1, hp2, List.append_assoc], Matches.starCons m1 m2⟩
      | inr h =>
        simp only [List.mem_singleton] at h
        exact ⟨[], by simp [h], Matches.starNil⟩
    | grp n a =>
      simp only [bndFree] at hb
      simp only [matchList, List.mem_map] at h
      obtain ⟨mid, hmid, hst2⟩ := h
      obtain ⟨p, hp, m⟩ := ih a st mid hb hmid
      refine ⟨p, ?_, Matches.grp m⟩
      have : st2.s = mid.s := by
        rw [← hst2]
        split <;> rfl
      rw [this, hp]
    | bnd => simp [bndFree] at hb
    | eol =>
      simp only [matchList] at h
      by_cases he : st.s.isEmpty
      · rw [if_pos he] at h
        simp only [List.mem_singleton] at h
        exact ⟨[], by simp [h], Matches.eol⟩
      · rw [if_neg he] at h; simp at h

/-- Soundness of `fullmatch`: a successful full match means the whole string
is in the pattern's language. -/
theorem fullmatch_sound {re : Re} {s : Str} (hb : bndFree re = true)
    (h : reFullmatchB re s = true) : Matches re s := by
  unfold reFullmatchB at h
  rw [List.any_eq_true] at h
  obtain ⟨st2, hmem, hempty⟩ := h
  obtain ⟨pre, hpre, m⟩ := matchList_sound _ re (mInit none s) st2 hb hmem
  simp only [mInit] at hpre
  rw [List.isEmpty_iff] at hempty
  rw [hempty, List.append_nil] at hpre
  exact hpre ▸ m

/-- Character classes closed under ASCII lower-casing. -/
def clsLowClosed : Re → Prop
  | .cls p => ∀ c, p c = true → p (lowChar c) = true
  | .cat a b => clsLowClosed a ∧ clsLowClosed b
  | .alt a b => clsLowClosed a ∧ clsLowClosed b
  | .star a => clsLowClosed a
  | .grp _ a => clsLowClosed a
  | _ => True

/-- The language of a lower-closed pattern is closed under lower-casing. -/
theorem matches_lower {re : Re} {s : Str} (hc : clsLowClosed re)
    (h : Matches re s) : Matches re (pyLower s) := by
  induction h with
  | eps => exact Matches.eps
  | cls hp =>
    rename_i p c
    exact Matches.cls (hc c hp)
  | cat _ _ iha ihb =>
    rw [show pyLower _ = _ from List.map_append _ _ _]
    exact Matches.cat (iha hc.1) (ihb hc.2)
  | altL _ ih => exact Matches.altL (ih hc.1)
  | altR _ ih => exact Matches.altR (ih hc.2)
  | starNil => exact Matches.starNil
  | starCons _ _ iha ihr =>
    rw [show pyLower _ = _ from List.map_append _ _ _]
    exact Matches.starCons (iha hc) (ihr hc)
  | grp _ ih => exact Matches.grp (ih hc)
  | eol => exact Matches.eol

theorem emailRe_bndFree : bndFree emailRe = true := rfl

theorem emailRe_clsLowClosed : clsLowClosed emailRe := by
  unfold emailRe Re.plus Re.rep2 chRe
  exact ⟨⟨fun c h => emailLocalC_low h, fun c h => emailLocalC_low h⟩,
         fun c h => atChar_low (by decide) h,
         ⟨fun c h => emailDomC_low h, fun c h => emailDomC_low h⟩,
         fun c h => atChar_low (by decide) h,
         fun c h => isAlpha_low h,
         fun c h => isAlpha_low h,
         fun c h => isAlpha_low h⟩

/-- Soundness of the `finditer` scan: every reported match is in the
pattern's language. -/
theorem reFindGo_sound {re : Re} (hb : bndFree re = true) :
    ∀ (fuel : Nat) (prev : Option Char) (s : Str) (m : Str) (st : MSt),
    (m, st) ∈ reFindGo re fuel prev s → Matches re m := by
  intro fuel
  induction fuel with
  | zero => intro prev s m st h; simp [reFindGo] at h
  | succ fuel ih =>
    intro prev s m st h
    simp only [reFindGo] at h
    split at h
    case _ st1 hh =>
      have hmem := List.mem_of_mem_head? hh
      obtain ⟨pre, hpre, hm⟩ := matchList_sound _ re (mInit prev s) st1 hb hmem
      simp only [mInit] at hpre
      split at h
      case _ hlen =>
        have hpre0 : pre = [] := by
          have hlc := congrArg List.length hpre
          simp at hlc
          exact List.eq_nil_of_length_eq_zero (by omega)
        split at h
        case _ =>
          simp only [List.mem_singleton] at h
          have hmnil : m = [] := congrArg Prod.fst h
          rw [hmnil, ← hpre0]
          exact hm
        case _ c rest =>
          rcases List.mem_cons.mp h with h1 | h1
          · have hmnil : m = [] := congrArg Prod.fst h1
            rw [hmnil, ← hpre0]
            exact hm
          · exact ih _ _ _ _ h1
      case _ hlen =>
        rcases List.mem_cons.mp h with h1 | h1
        · have hmm : m = s.take (s.length - st1.s.length) :=
            congrArg Prod.fst h1
          have hplen : pre.length = s.length - st1.s.length := by
            have hlc := congrArg List.length hpre
            simp at hlc
            omega
          rw [hmm, ← hplen, hpre, List.take_left]
          exact hm
        · exact ih _ _ _ _ h1
    case _ hh =>
      split at h
      case _ => simp at h
      case _ c rest => exact ih _ _ _ _ h

/-- Every string reported by `reFindAll` on a boundary-free pattern is in
the pattern's language. -/
theorem reFindAll_sound {re : Re} (hb : bndFree re = true) {s m : Str}
    (h : m ∈ reFindAll re s) : Matches re m := by
  unfold reFindAll at h
  rw [List.mem_map] at h
  obtain ⟨⟨m1, st⟩, hmem, hfst⟩ := h
  cases hfst
  exact reFindGo_sound hb _ _ _ _ _ hmem

/-- Fold invariant restricted to members of the folded list. -/
theorem foldl_inv_mem {α β : Type} (step : α → β → α) (P : α → Prop) :
    ∀ (l : List β), (∀ a b, b ∈ l → P a → P (step a b)) →
    ∀ (a : α), P a → P (l.foldl step a) := by
  intro l
  induction l with
  | nil => intro _ a ha; exact ha
  | cons b t ih =>
    intro h a ha
    exact ih (fun a2 b2 hb2 => h a2 b2 (List.mem_cons_of_mem b hb2)) _
      (h a b (List.mem_cons_self b t) ha)

/-!
## The harvester invariant: every reported address satisfies the email
grammar and survives the exclusion filter.
-/

theorem mailtoFold_matches {anchors : List Str} {e : Str}
    (h : e ∈ mailtoFold anchors) : Matches emailRe e := by
  unfold mailtoFold at h
  refine foldl_inv_mem _ (fun acc => ∀ x ∈ acc, Matches emailRe x) anchors
    ?_ [] (by simp) e h
  intro acc href _ hacc x hx
  dsimp only at hx
  split at hx
  · split at hx
    · rcases mem_addUniq.mp hx with h1 | h1
      · exact hacc x h1
      · subst h1
        exact fullmatch_sound emailRe_bndFree (by assumption)
    · exact hacc x hx
  · exact hacc x hx

theorem textFold_matches {base : List Str} {text e : Str}
    (hbase : ∀ x ∈ base, Matches emailRe x) (h : e ∈ textFold base text) :
    Matches emailRe e := by
  unfold textFold at h
  refine foldl_inv_mem _ (fun acc => ∀ x ∈ acc, Matches emailRe x) _
    ?_ base hbase e h
  intro acc m hm hacc x hx
  rcases mem_addUniq.mp hx with h1 | h1
  · exact hacc x h1
  · subst h1
    exact matches_lower emailRe_clsLowClosed (reFindAll_sound emailRe_bndFree hm)

/-- Main harvester lemma: membership in the harvester's output gives the
grammar derivation and the exclusion-filter facts. -/
theorem extract_emails_mem {doc : Doc} {domain : Option Str} {e : Str}
    (h : e ∈ extract_emails_from_soup doc domain) :
    Matches emailRe e ∧ keepEmail e = true := by
  unfold extract_emails_from_soup at h
  have hfil : e ∈ (textFold (mailtoFold doc.anchors)
      (getText (str " ") doc.texts)).filter keepEmail := by
    rcases domain with _ | d
    · exact h
    · dsimp only at h
      split at h
      · unfold pySortStr at h
        exact ((List.perm_insertionSort _ _).mem_iff).mp h
      · exact h
  rw [List.mem_filter] at hfil
  exact ⟨textFold_matches (fun x hx => mailtoFold_matches hx) hfil.1, hfil.2⟩

/-- Unpacked form of the filter facts. -/
theorem keepEmail_props {e : Str} (h : keepEmail e = true) :
    emailDomainOf e ∉ EXCLUDED_EMAIL_DOMAINS ∧
    (∀ p ∈ EXCLUDED_EMAIL_PREFIXES, strStarts p e = false) ∧
    (∀ x ∈ ASSET_EXTS, strEnds x (emailDomainOf e) = false) := by
  unfold keepEmail at h
  simp only [Bool.and_eq_true, Bool.not_eq_true', decide_eq_false_iff_not,
    List.any_eq_false] at h
  refine ⟨h.1.1, fun p hp => ?_, fun x hx => ?_⟩
  · simpa using h.1.2 p hp
  · simpa using h.2 x hx

/-!
## Shape of name-pattern captures

Strategy C validates `NAME_PATTERN.match(...).group(1)` but stores its
stripped form; the following shows the two coincide: every string in the
language of the name core starts with an upper-case letter and ends with a
lower-case letter, so stripping is the identity on it.
-/

theorem matches_cls_inv {p : Char → Bool} {s : Str} (h : Matches (.cls p) s) :
    ∃ c, s = [c] ∧ p c = true := by
  cases h with
  | cls hp => exact ⟨_, rfl, hp⟩

theorem matches_cat_inv {a b : Re} {s : Str} (h : Matches (.cat a b) s) :
    ∃ u v, s = u ++ v ∧ Matches a u ∧ Matches b v := by
  cases h with
  | cat ha hb => exact ⟨_, _, rfl, ha, hb⟩

theorem matches_alt_inv {a b : Re} {s : Str} (h : Matches (.alt a b) s) :
    Matches a s ∨ Matches b s := by
  cases h with
  | altL h => exact Or.inl h
  | altR h => exact Or.inr h

theorem matches_eps_inv {s : Str} (h : Matches .eps s) : s = [] := by
  cases h; rfl

theorem matches_star_cls {p : Char → Bool} : ∀ {s : Str},
    Matches (.star (.cls p)) s → ∀ c ∈ s, p c = true := by
  intro s
  generalize hn : s.length = n
  induction n using Nat.strong_induction_on generalizing s with
  | _ n ih =>
    intro h c hc
    cases h with
    | starNil => simp at hc
    | starCons h1 h2 =>
      rename_i u v
      obtain ⟨d, hu, hd⟩ := matches_cls_inv h1
      subst hu
      rcases List.mem_append.mp hc with h3 | h3
      · rw [List.mem_singleton] at h3
        exact h3 ▸ hd
      · exact ih v.length (by subst hn; simp) rfl h2 c h3

theorem matches_lowAlP_props {s : Str} (h : Matches lowAlP s) :
    s ≠ [] ∧ ∀ c ∈ s, c.isLower = true := by
  obtain ⟨u, v, hs, hu, hv⟩ := matches_cat_inv h
  obtain ⟨c, hcu, hc⟩ := matches_cls_inv hu
  subst hs hcu
  refine ⟨by simp, fun x hx => ?_⟩
  rcases List.mem_append.mp hx with h1 | h1
  · rw [List.mem_singleton] at h1
    exact h1 ▸ hc
  · exact matches_star_cls hv x h1

theorem nameCore_head {g : Str} (h : Matches nameCoreRe g) :
    ∃ c, g.head? = some c ∧ c.isUpper = true := by
  unfold nameCoreRe at h
  obtain ⟨u, v, hg, hu, _⟩ := matches_cat_inv h
  obtain ⟨c, hcu, hc⟩ := matches_cls_inv hu
  subst hg hcu
  exact ⟨c, rfl, hc⟩

theorem nameCore_last {g : Str} (h : Matches nameCoreRe g) :
    ∃ c, g.getLast? = some c ∧ c.isLower = true := by
  unfold nameCoreRe at h
  obtain ⟨u1, v1, hg, _, h1⟩ := matches_cat_inv h
  obtain ⟨u2, v2, hv1, _, h2⟩ := matches_cat_inv h1
  obtain ⟨u3, v3, hv2, _, h3⟩ := matches_cat_inv h2
  obtain ⟨u4, v4, hv3, _, h4⟩ := matches_cat_inv h3
  obtain ⟨u5, v5, hv4, _, h5⟩ := matches_cat_inv h4
  -- h5 : Matches (cat lowAlP OPTLAST) v5
  obtain ⟨u6, v6, hv5, h6, h7⟩ := matches_cat_inv h5
  have h6p := matches_lowAlP_props h6
  have hlast : ∃ c, v5.getLast? = some c ∧ c.isLower = true := by
    rcases matches_alt_inv h7 with h8 | h8
    · obtain ⟨u7, v7, hv6, _, h9⟩ := matches_cat_inv h8
      obtain ⟨u8, v8, hv7, _, h10⟩ := matches_cat_inv h9
      have h10p := matches_lowAlP_props h10
      have hne : v8 ≠ [] := h10p.1
      have hd : v8.getLast? = some (v8.getLast hne) :=
        List.getLast?_eq_getLast _ hne
      subst hv5 hv6 hv7
      refine ⟨v8.getLast hne, ?_, h10p.2 _ (List.getLast_mem hne)⟩
      simp [List.getLast?_append, hd]
    · have hv6 := matches_eps_inv h8
      subst hv5
      rw [hv6, List.append_nil]
      have hne : u6 ≠ [] := h6p.1
      exact ⟨u6.getLast hne, List.getLast?_eq_getLast _ hne,
        h6p.2 _ (List.getLast_mem hne)⟩
  obtain ⟨c, hc, hcl⟩ := hlast
  subst hg hv1 hv2 hv3 hv4
  refine ⟨c, ?_, hcl⟩
  simp [List.getLast?_append, hc]

theorem upper_not_space {c : Char} (h : c.isUpper = true) : isPySpace c = false := by
  have hb := (isUpper_iff c).mp h
  unfold isPySpace
  have : ∀ d : Char, c = d → 65 ≤ d.toNat ∧ d.toNat ≤ 90 := fun d hd => hd ▸ hb
  simp only [Bool.or_eq_false_iff, decide_eq_false_iff_not]
  refine ⟨⟨⟨⟨⟨fun hc => ?_, fun hc => ?_⟩, fun hc => ?_⟩, fun hc => ?_⟩,
    fun hc => ?_⟩, fun hc => ?_⟩ <;>
    · have := this _ hc
      revert this
      decide

theorem lower_not_space {c : Char} (h : c.isLower = true) : isPySpace c = false := by
  have hb := (isLower_iff c).mp h
  unfold isPySpace
  have : ∀ d : Char, c = d → 97 ≤ d.toNat ∧ d.toNat ≤ 122 := fun d hd => hd ▸ hb
  simp only [Bool.or_eq_false_iff, decide_eq_false_iff_not]
  refine ⟨⟨⟨⟨⟨fun hc => ?_, fun hc => ?_⟩, fun hc => ?_⟩, fun hc => ?_⟩,
    fun hc => ?_⟩, fun hc => ?_⟩ <;>
    · have := this _ hc
      revert this
      decide

/-- Stripping is the identity on a string whose first and last characters
are not whitespace. -/
theorem pyStrip_fix {g : Str} {a b : Char} (hh : g.head? = some a)
    (ha : isPySpace a = false) (hl : g.getLast? = some b)
    (hb : isPySpace b = false) : pyStrip g = g := by
  unfold pyStrip
  obtain ⟨t, rfl⟩ : ∃ t, g = a :: t := by
    cases g with
    | nil => simp at hh
    | cons x xs => simp at hh; exact ⟨xs, by rw [hh]⟩
  rw [List.dropWhile_cons, if_neg (by simp [ha])]
  have hrev : (a :: t).reverse.head? = some b := by
    rw [List.head?_reverse]
    exact hl
  obtain ⟨t2, ht2⟩ : ∃ t2, (a :: t).reverse = b :: t2 := by
    cases hr : (a :: t).reverse with
    | nil => rw [hr] at hrev; simp at hrev
    | cons x xs => rw [hr] at hrev; simp at hrev; exact ⟨xs, by rw [hrev]⟩
  rw [ht2, List.dropWhile_cons, if_neg (by simp [hb]), ← ht2,
    List.reverse_reverse]

/-- The matched name of the name core is already stripped. -/
theorem nameCore_strip {g : Str} (h : Matches nameCoreRe g) : pyStrip g = g := by
  obtain ⟨c1, hc1, hu⟩ := nameCore_head h
  obtain ⟨c2, hc2, hlo⟩ := nameCore_last h
  exact pyStrip_fix hc1 (upper_not_space hu) hc2 (lower_not_space hlo)

/-- The group-1 capture of a `NAME_PATTERN` match is in the name-core
language (hence equal to its own stripped form). -/
theorem namePat_g1 : ∀ (fuel : Nat) (st st2 : MSt),
    st2 ∈ matchList fuel namePatRe st → Matches nameCoreRe st2.g1 := by
  intro fuel st st2 h
  match fuel with
  | 0 => simp [matchList] at h
  | 1 =>
    unfold namePatRe at h
    simp [matchList] at h
  | fuel + 2 =>
    unfold namePatRe at h
    simp only [matchList, List.mem_flatMap] at h
    obtain ⟨st1, hst1, h2⟩ := h
    obtain ⟨stg, hstg, h3⟩ := h2
    match fuel, hstg, h3 with
    | 0, hstg, _ => simp [matchList] at hstg
    | fuel + 1, hstg, h3 =>
      rw [matchList] at hstg
      rw [List.mem_map] at hstg
      obtain ⟨mid, hmid, hset⟩ := hstg
      obtain ⟨pre, hpre, hm⟩ :=
        matchList_sound _ _ _ _ (rfl : bndFree nameCoreRe = true) hmid
      have hg1 : stg.g1 = pre := by
        rw [← hset]
        show List.take (st1.s.length - mid.s.length) st1.s = pre
        rw [hpre, List.length_append, Nat.add_sub_cancel, List.take_left]
      have hst2 : st2 = stg := by
        rw [matchList] at h3
        split at h3
        · exact List.mem_singleton.mp h3
        · simp at h3
      rw [hst2, hg1]
      exact hm

/-!
## Invariants of the extraction strategies
-/

theorem mem_strategyAWindow {t : Str} {w : List Str} {c : Candidate}
    (h : c ∈ strategyAWindow t w) :
    ∃ name, is_valid_person_name name = true ∧ c = mkWebCand name [] (pyTitle t) := by
  unfold strategyAWindow at h
  split at h
  · simp at h
  · split at h
    · simp at h
    · split at h
      · rw [List.mem_singleton] at h
        exact ⟨_, by assumption, h⟩
      · simp at h

theorem strategyA_ok {stripped : List Str} {c : Candidate}
    (h : c ∈ strategyA stripped) :
    is_valid_person_name c.name = true ∧ c.email = [] := by
  unfold strategyA at h
  rw [List.mem_flatMap] at h
  obtain ⟨li, _, hc⟩ := h
  split at hc
  · simp at hc
  · split at hc
    · simp at hc
    · split at hc
      · simp at hc
      · obtain ⟨name, hv, hceq⟩ := mem_strategyAWindow hc
        subst hceq
        exact ⟨hv, rfl⟩

theorem strategyB_ok {stripped : List Str} {c : Candidate}
    (h : c ∈ strategyB stripped) :
    is_valid_person_name c.name = true ∧ c.email = [] := by
  unfold strategyB at h
  rw [List.mem_flatMap] at h
  obtain ⟨line, _, hc⟩ := h
  split at hc
  · simp at hc
  · split at hc
    · rw [List.mem_singleton] at hc
      subst hc
      exact ⟨by assumption, rfl⟩
    · simp at hc

theorem strategyB_complete {stripped : List Str} {line : Str} {st : MSt}
    (hl : line ∈ stripped) (hs : reSearch sameLineRe line = some st)
    (hv : is_valid_person_name (pyStrip st.g1) = true) :
    mkWebCand (pyStrip st.g1) [] (pyTitle (pyStrip st.g2)) ∈ strategyB stripped := by
  unfold strategyB
  rw [List.mem_flatMap]
  refine ⟨line, hl, ?_⟩
  simp only [hs]
  rw [if_pos hv]
  exact List.mem_singleton.mpr rfl

theorem cardNameAt_ok {lines : List Str} {ni : Int} {nm : Str}
    (h : cardNameAt lines ni = some nm) :
    is_valid_person_name nm = true ∧ pyStrip nm = nm := by
  unfold cardNameAt at h
  split at h
  · split at h
    · exact absurd h (by simp)
    case _ st heq =>
      split at h
      case isTrue hvv =>
        have hnm : nm = st.g1 := (Option.some.inj h).symm
        subst hnm
        refine ⟨hvv, ?_⟩
        have hmem := List.mem_of_mem_head? heq
        exact nameCore_strip (namePat_g1 _ _ _ hmem)
      case isFalse => exact absurd h (by simp)
  · exact absurd h (by simp)

theorem mem_strategyCPart1 {lines : List Str} {c : Candidate}
    (h : c ∈ strategyCPart1 lines) :
    is_valid_person_name c.name = true ∧ c.email = [] := by
  unfold strategyCPart1 at h
  split at h
  · simp at h
  · split at h
    · simp at h
    case _ nm heq =>
      rw [List.mem_singleton] at h
      subst h
      have hok : is_valid_person_name nm = true ∧ pyStrip nm = nm := by
        rcases (Option.orElse_eq_some' _ _ _).mp heq with h1 | ⟨_, h1⟩
        · exact cardNameAt_ok h1
        · rcases (Option.orElse_eq_some' _ _ _).mp h1 with h2 | ⟨_, h2⟩
          · exact cardNameAt_ok h2
          · rcases (Option.orElse_eq_some' _ _ _).mp h2 with h3 | ⟨_, h3⟩
            · exact cardNameAt_ok h3
            · exact cardNameAt_ok h3
      refine ⟨?_, rfl⟩
      show is_valid_person_name (pyStrip nm) = true
      rw [hok.2]
      exact hok.1

theorem mem_strategyCPart2 {acc : List Candidate} {text : Str} {c : Candidate}
    (h : c ∈ strategyCPart2 acc text) :
    is_valid_person_name c.name = true ∧ c.email = [] := by
  unfold strategyCPart2 at h
  split at h
  · split at h
    · split at h
      · simp at h
      · rw [List.mem_singleton] at h
        subst h
        exact ⟨by assumption, rfl⟩
    · simp at h
  · simp at h

theorem strategyC_ok (cards : List (List Card)) (prior : List Candidate)
    (hp : ∀ x ∈ prior, is_valid_person_name x.name = true ∧ x.email = []) :
    ∀ c ∈ strategyC cards prior,
      is_valid_person_name c.name = true ∧ c.email = [] := by
  intro c h
  unfold strategyC at h
  refine foldl_inv_mem _
    (fun acc => ∀ x ∈ acc, is_valid_person_name x.name = true ∧ x.email = [])
    cards ?_ prior hp c h
  intro acc cardList _ hacc
  refine foldl_inv_mem _
    (fun acc2 => ∀ x ∈ acc2, is_valid_person_name x.name = true ∧ x.email = [])
    _ ?_ acc hacc
  intro acc2 card _ hacc2 y hy
  rcases List.mem_append.mp hy with h1 | h1
  · rcases List.mem_append.mp h1 with h2 | h2
    · exact hacc2 y h2
    · exact mem_strategyCPart1 h2
  · exact mem_strategyCPart2 h1

theorem strategyC_prior {cards : List (List Card)} {prior : List Candidate}
    {x : Candidate} (hx : x ∈ prior) : x ∈ strategyC cards prior := by
  unfold strategyC
  refine foldl_inv_mem _ (fun acc => x ∈ acc) cards ?_ prior hx
  intro acc cl _ hacc
  refine foldl_inv_mem _ (fun acc2 => x ∈ acc2) _ ?_ acc hacc
  intro acc2 card _ hacc2
  exact List.mem_append_left _ (List.mem_append_left _ hacc2)

theorem assignEmail_fields (emails : List Str) (c : Candidate) :
    (assignEmail emails c).name = c.name ∧
    (assignEmail emails c).title = c.title ∧
    (assignEmail emails c).source = c.source ∧
    ((assignEmail emails c).email = c.email ∨
      (assignEmail emails c).email ∈ emails) := by
  unfold assignEmail
  split
  · exact ⟨rfl, rfl, rfl, Or.inl rfl⟩
  · split
    · exact ⟨rfl, rfl, rfl, Or.inl rfl⟩
    · split
      case _ email heq =>
        exact ⟨rfl, rfl, rfl, Or.inr (List.mem_of_find?_eq_some heq)⟩
      case _ => exact ⟨rfl, rfl, rfl, Or.inl rfl⟩

/-- The scraped-candidate invariant: every candidate produced by
`_extract_contacts_from_soup` has a NameValidator-passing name (when
non-empty) and an email drawn from the harvester's output (when non-empty). -/
theorem extract_contacts_inv {doc : Doc} {domain : Option Str} {c : Candidate}
    (h : c ∈ extract_contacts_from_soup doc domain) :
    (c.name ≠ [] → is_valid_person_name c.name = true) ∧
    (c.email = [] ∨ c.email ∈ extract_emails_from_soup doc domain) := by
  unfold extract_contacts_from_soup at h
  have hprior : ∀ x ∈ strategyA (docStrippedLines doc) ++
      strategyB (docStrippedLines doc),
      is_valid_person_name x.name = true ∧ x.email = [] := by
    intro x hx
    rcases List.mem_append.mp hx with h1 | h1
    · exact strategyA_ok h1
    · exact strategyB_ok h1
  have hcont := strategyC_ok doc.cards _ hprior
  have hmain : ∀ y ∈ (contactsPhase doc).map
      (assignEmail (extract_emails_from_soup doc domain)),
      (y.name ≠ [] → is_valid_person_name y.name = true) ∧
      (y.email = [] ∨ y.email ∈ extract_emails_from_soup doc domain) := by
    intro y hy
    rw [List.mem_map] at hy
    obtain ⟨c0, hc0, hy0⟩ := hy
    obtain ⟨hv, he⟩ := hcont c0 hc0
    obtain ⟨hn, _, _, hem⟩ := assignEmail_fields
      (extract_emails_from_soup doc domain) c0
    rw [hy0] at hn hem
    constructor
    · intro _
      rw [hn]
      exact hv
    · rcases hem with h2 | h2
      · rw [h2, he]
        exact Or.inl rfl
      · exact Or.inr h2
  split at h
  · rcases List.mem_append.mp h with h1 | h1
    · exact hmain c h1
    · rw [List.mem_map] at h1
      obtain ⟨e, he, hc⟩ := h1
      subst hc
      refine ⟨fun hne => absurd rfl hne, Or.inr ?_⟩
      exact List.take_subset 3 _ he
  · exact hmain c h

/-!
## Character-shape facts about `extract_domain` outputs
-/

theorem stripPre_subset (p s : Str) : stripPre p s ⊆ s := by
  unfold stripPre
  split
  · exact List.drop_subset _ _
  · exact fun _ h => h

theorem mem_pyLower {s : Str} {c : Char} (h : c ∈ pyLower s) :
    ∃ c0 ∈ s, c = lowChar c0 := by
  unfold pyLower at h
  rw [List.mem_map] at h
  obtain ⟨c0, hc0, hc⟩ := h
  exact ⟨c0, hc0, hc.symm⟩

theorem lowChar_eq_or_lower (c : Char) :
    lowChar c = c ∨ (lowChar c).isLower = true := by
  cases hu : c.isUpper with
  | false => exact Or.inl (lowChar_of_not_upper hu)
  | true => exact Or.inr (lowChar_isLower_of_upper hu)

theorem lower_not_special {c : Char} (h : c.isLower = true) :
    c ≠ '/' ∧ c ≠ '?' ∧ c ≠ '#' ∧ c ≠ ':' ∧ c ≠ ';' ∧ c ≠ '[' ∧ c ≠ ']' ∧
    isUnsafeUrl c = false ∧ isPySpace c = false := by
  have hne : ∀ d : Char, d.isLower = false → c ≠ d := by
    intro d hd hc
    rw [hc] at h
    rw [h] at hd
    cases hd
  refine ⟨hne _ (by decide), hne _ (by decide), hne _ (by decide),
    hne _ (by decide), hne _ (by decide), hne _ (by decide), hne _ (by decide),
    ?_, lower_not_space h⟩
  unfold isUnsafeUrl
  simp only [Bool.or_eq_false_iff, decide_eq_false_iff_not]
  exact ⟨⟨hne _ (by decide), hne _ (by decide)⟩, hne _ (by decide)⟩

theorem schemeSplit_snd_subset (u : Str) : (schemeSplit u).2 ⊆ u := by
  unfold schemeSplit
  split
  · split
    · intro c hc
      simp only at hc
      exact (List.dropWhile_sublist _).subset (List.tail_subset _ hc)
    · exact fun _ h => h
  · exact fun _ h => h

theorem urlPreprocess_unsafe {u : Str} {c : Char} (h : c ∈ urlPreprocess u) :
    isUnsafeUrl c = false := by
  unfold urlPreprocess at h
  rw [List.mem_filter] at h
  simpa using h.2

theorem stripFragQuery_subset (s : Str) : stripFragQuery s ⊆ s := by
  unfold stripFragQuery
  intro c hc
  exact (List.takeWhile_sublist _).subset ((List.takeWhile_sublist _).subset hc)

theorem stripFragQuery_chars {s : Str} {c : Char} (h : c ∈ stripFragQuery s) :
    c ≠ '#' ∧ c ≠ '?' := by
  unfold stripFragQuery at h
  have h2 := List.mem_takeWhile_imp h
  have h1 := List.mem_takeWhile_imp ((List.takeWhile_sublist _).subset h)
  exact ⟨by simpa using h1, by simpa using h2⟩

theorem splitParams_subset (p : Str) : splitParams p ⊆ p := by
  unfold splitParams
  split
  · split
    · intro c hc
      rcases List.mem_append.mp hc with h1 | h1
      · rw [List.mem_reverse] at h1
        have := (List.dropWhile_sublist _).subset h1
        rw [List.mem_reverse] at this
        exact this
      · have h2 := (List.takeWhile_sublist _).subset h1
        rw [List.mem_reverse] at h2
        have := (List.takeWhile_sublist _).subset h2
        rw [List.mem_reverse] at this
        exact this
    · exact fun _ h => h
  · exact fun _ h => (List.takeWhile_sublist _).subset h

/-- Characters of the parsed netloc and path: netloc stops before any
`/?#`, the path carries no `?` or `#`, and neither contains tab/CR/LF. -/
theorem urlparseNP_chars {url netloc path : Str}
    (h : urlparseNP url = some (netloc, path)) :
    (∀ c ∈ netloc, netlocChar c = true ∧ isUnsafeUrl c = false) ∧
    (∀ c ∈ path, c ≠ '?' ∧ c ≠ '#' ∧ isUnsafeUrl c = false) := by
  unfold urlparseNP at h
  cases hs : urlsplitModel url with
  | none => rw [hs] at h; cases h
  | some t =>
    obtain ⟨scheme, netloc0, path0⟩ := t
    rw [hs] at h
    simp only [Option.some.injEq, Prod.mk.injEq] at h
    obtain ⟨hn, hp⟩ := h
    unfold urlsplitModel at hs
    split at hs
    · split at hs
      · cases hs
      · simp only [Option.some.injEq, Prod.mk.injEq] at hs
        obtain ⟨_, hnl, hpl⟩ := hs
        subst hn hnl hpl
        constructor
        · intro c hc
          refine ⟨List.mem_takeWhile_imp hc, ?_⟩
          have h2 := (List.takeWhile_sublist _).subset hc
          have h3 := List.drop_subset _ _ h2
          exact urlPreprocess_unsafe (schemeSplit_snd_subset _ h3)
        · intro c hc
          have hin : c ∈ stripFragQuery (((schemeSplit (urlPreprocess url)).2.drop 2).drop
              (((schemeSplit (urlPreprocess url)).2.drop 2).takeWhile netlocChar).length) := by
            subst hp
            split at hc
            · exact splitParams_subset _ hc
            · exact hc
          have hfq := stripFragQuery_chars hin
          have h2 := stripFragQuery_subset _ hin
          have h3 := List.drop_subset _ _ h2
          have h4 := List.drop_subset _ _ h3
          exact ⟨hfq.2, hfq.1, urlPreprocess_unsafe (schemeSplit_snd_subset _ h4)⟩
    · simp only [Option.some.injEq, Prod.mk.injEq] at hs
      obtain ⟨_, hnl, hpl⟩ := hs
      subst hn hnl hpl
      constructor
      · intro c hc
        simp at hc
      · intro c hc
        have hin : c ∈ stripFragQuery (schemeSplit (urlPreprocess url)).2 := by
          subst hp
          split at hc
          · exact splitParams_subset _ hc
          · exact hc
        have hfq := stripFragQuery_chars hin
        have h2 := stripFragQuery_subset _ hin
        exact ⟨hfq.2, hfq.1, urlPreprocess_unsafe (schemeSplit_snd_subset _ h2)⟩

/-- Well-formedness of every character of an `extract_domain` output. -/
def domainCharOK (c : Char) : Prop :=
  c.isUpper = false ∧ c ≠ '/' ∧ c ≠ '?' ∧ c ≠ '#' ∧ isUnsafeUrl c = false

theorem extract_domain_chars {u : Str} {d : Str}
    (h : extract_domain (some u) = some d) :
    (∀ c ∈ d, domainCharOK c) ∧ hasChar '.' d = true := by
  unfold extract_domain at h
  split at h
  · cases h
  · split at h
    · cases h
    · split at h
      · cases h
      · rename_i netloc path heq2
        split at h
        case _ hdot =>
          have hd : d = domainFrom netloc path := (Option.some.inj h).symm
          subst hd
          refine ⟨?_, hdot⟩
          intro c hc
          unfold domainFrom at hc
          have hc2 := stripPre_subset _ _ hc
          obtain ⟨c0, hc0, rfl⟩ := mem_pyLower hc2
          have hup := lowChar_isUpper c0
          have hprops := urlparseNP_chars heq2
          have hraw : c0 ≠ '/' ∧ c0 ≠ '?' ∧ c0 ≠ '#' ∧ isUnsafeUrl c0 = false := by
            split at hc0
            · have hn := hprops.1 c0 hc0
              have hn1 := hn.1
              unfold netlocChar at hn1
              simp only [Bool.not_eq_true', Bool.or_eq_false_iff,
                decide_eq_false_iff_not] at hn1
              exact ⟨hn1.1.1, hn1.1.2, hn1.2, hn.2⟩
            · rw [splitCh_headD] at hc0
              have hslash := List.mem_takeWhile_imp hc0
              have hin := (List.takeWhile_sublist _).subset hc0
              have hp := hprops.2 c0 hin
              exact ⟨by simpa using hslash, hp.1, hp.2.1, hp.2.2⟩
          rcases lowChar_eq_or_lower c0 with heql | hlow
          · rw [heql]
            rw [heql] at hup
            exact ⟨hup, hraw.1, hraw.2.1, hraw.2.2.1, hraw.2.2.2⟩
          · have hs := lower_not_special hlow
            exact ⟨hup, hs.1, hs.2.1, hs.2.2.1, hs.2.2.2.2.2.2.2.1⟩
        case _ => cases h

/-!
## Evaluation of `extract_domain` on its own outputs (idempotence)
-/

theorem str_https_expand :
    str "https://" = 'h' :: 't' :: 't' :: 'p' :: 's' :: ':' :: '/' :: '/' ::[] := rfl

theorem strStarts_head {p : Char} {ps s : Str}
    (h : strStarts (p :: ps) s = true) : ∃ t, s = p :: t := by
  cases s with
  | nil => cases h
  | cons c cs =>
    unfold strStarts at h
    rw [Bool.and_eq_true] at h
    have : p = c := of_decide_eq_true h.1
    exact ⟨cs, by rw [this]⟩

theorem urlPreprocess_https {d : Str} (hd : ∀ c ∈ d, isUnsafeUrl c = false) :
    urlPreprocess (str "https://" ++ d) = str "https://" ++ d := by
  unfold urlPreprocess
  rw [str_https_expand]
  simp only [List.cons_append, List.nil_append]
  rw [List.dropWhile_cons, if_neg (by decide)]
  rw [show ('h' :: 't' :: 't' :: 'p' :: 's' :: ':' :: '/' :: '/' ::d : Str) =
    ['h','t','t','p','s',':','/','/'] ++ d from rfl]
  rw [List.filter_append]
  rw [show List.filter (fun c => !(isUnsafeUrl c)) ['h','t','t','p','s',':','/','/'] =
    ['h','t','t','p','s',':','/','/'] from rfl]
  rw [List.filter_eq_self.mpr]
  intro a ha
  rw [hd a ha]
  rfl

theorem urlPreprocess_plain {d : Str} {t : Str} (hh : d = 'h' :: t)
    (hd : ∀ c ∈ d, isUnsafeUrl c = false) : urlPreprocess d = d := by
  unfold urlPreprocess
  rw [hh, List.dropWhile_cons, if_neg (by decide), ← hh]
  rw [List.filter_eq_self.mpr]
  intro a ha
  rw [hd a ha]
  rfl

theorem schemeSplit_https {d : Str} (hc : hasChar ':' d = false) :
    schemeSplit (str "https://" ++ d) = (str "https", '/' :: '/' ::d) := by
  unfold schemeSplit
  rw [if_pos ?hc1]
  case hc1 =>
    rw [str_https_expand]
    simp [hasChar]
  have htake : (str "https://" ++ d).takeWhile (· ≠ ':') = str "https" := by
    rw [str_https_expand]
    simp [List.takeWhile_cons, str]
  have hdrop : ((str "https://" ++ d).dropWhile (· ≠ ':')).tail = '/' :: '/' ::d := by
    rw [str_https_expand]
    simp [List.dropWhile_cons]
  rw [if_pos ?cond]
  case cond =>
    rw [htake]
    rw [show (str "https://" ++ d).headD ' ' = 'h' from by rw [str_https_expand]; rfl]
    decide
  rw [htake, hdrop]
  rfl

theorem schemeSplit_noColon {d : Str} (hc : hasChar ':' d = false) :
    schemeSplit d = ([], d) := by
  unfold schemeSplit
  rw [if_neg (by simp [hc])]

theorem stripFragQuery_fix {d : Str} (hnet : ∀ c ∈ d, netlocChar c = true) :
    stripFragQuery d = d := by
  have hq : ∀ c ∈ d, c ≠ '#' ∧ c ≠ '?' := by
    intro c hc
    have := hnet c hc
    unfold netlocChar at this
    simp only [Bool.not_eq_true', Bool.or_eq_false_iff,
      decide_eq_false_iff_not] at this
    exact ⟨this.2, this.1.2⟩
  unfold stripFragQuery
  rw [List.takeWhile_eq_self_iff.mpr fun c hcm => by
    simp [(hq c ((List.takeWhile_sublist _).subset hcm)).2]]
  rw [List.takeWhile_eq_self_iff.mpr fun c hcm => by simp [(hq c hcm).1]]

theorem urlsplitModel_https {d : Str}
    (hcol : hasChar ':' d = false) (hb1 : hasChar '[' d = false)
    (hb2 : hasChar ']' d = false)
    (hnet : ∀ c ∈ d, netlocChar c = true)
    (huns : ∀ c ∈ d, isUnsafeUrl c = false) :
    urlsplitModel (str "https://" ++ d) = some (str "https", d, []) := by
  have htk : d.takeWhile netlocChar = d := List.takeWhile_eq_self_iff.mpr hnet
  unfold urlsplitModel
  rw [urlPreprocess_https huns, schemeSplit_https hcol]
  rw [if_pos (show strStarts (str "//")
    ((str "https", '/' :: '/' ::d) : Str × Str).2 = true from rfl)]
  rw [if_neg ?brk]
  case brk =>
    show ¬ (hasChar '[' (List.takeWhile netlocChar d) ||
      hasChar ']' (List.takeWhile netlocChar d)) = true
    rw [htk]
    simp [hb1, hb2]
  show some (str "https", List.takeWhile netlocChar d,
    stripFragQuery (d.drop (List.takeWhile netlocChar d).length)) =
    some (str "https", d, [])
  rw [htk, List.drop_length]
  rfl

theorem urlsplitModel_plain {d t : Str} (ht : d = 'h' :: t)
    (hcol : hasChar ':' d = false)
    (hnet : ∀ c ∈ d, netlocChar c = true)
    (huns : ∀ c ∈ d, isUnsafeUrl c = false) :
    urlsplitModel d = some ([], [], d) := by
  unfold urlsplitModel
  rw [urlPreprocess_plain ht huns, schemeSplit_noColon hcol]
  rw [if_neg ?noslash]
  case noslash =>
    show ¬ strStarts (str "//") d = true
    rw [ht, show strStarts (str "//") ('h' ::t) = false from rfl]
    exact Bool.false_ne_true
  show some (([] : Str), ([] : Str), stripFragQuery d) = some ([], [], d)
  rw [stripFragQuery_fix hnet]

theorem urlparseNP_https {d : Str}
    (hcol : hasChar ':' d = false) (hb1 : hasChar '[' d = false)
    (hb2 : hasChar ']' d = false)
    (hnet : ∀ c ∈ d, netlocChar c = true)
    (huns : ∀ c ∈ d, isUnsafeUrl c = false) :
    urlparseNP (str "https://" ++ d) = some (d, []) := by
  unfold urlparseNP
  rw [urlsplitModel_https hcol hb1 hb2 hnet huns]
  rfl

theorem urlparseNP_plain {d : Str} (hh : strStarts (str "http") d = true)
    (hcol : hasChar ':' d = false) (hsemi : hasChar ';' d = false)
    (hnet : ∀ c ∈ d, netlocChar c = true)
    (huns : ∀ c ∈ d, isUnsafeUrl c = false) :
    urlparseNP d = some ([], d) := by
  obtain ⟨t, ht⟩ := strStarts_head hh
  unfold urlparseNP
  rw [urlsplitModel_plain ht hcol hnet huns]
  show some (([] : Str),
    if ([] : Str) ∈ usesParams ∧ hasChar ';' d = true then splitParams d else d) =
    some ([], d)
  rw [if_neg ?semi]
  case semi => simp [hsemi]

/-- Idempotence of domain canonicalization, on outputs free of the parsing
metacharacters `:` `;` `[` `]`, not starting with `www.`, and with no
surrounding whitespace. -/
theorem extract_domain_idem {u d : Str}
    (h : extract_domain (some u) = some d)
    (hwww : strStarts (str "www.") d = false)
    (hcol : hasChar ':' d = false) (hsemi : hasChar ';' d = false)
    (hb1 : hasChar '[' d = false) (hb2 : hasChar ']' d = false)
    (hstrip : pyStrip d = d) :
    extract_domain (some d) = some d := by
  obtain ⟨hchars, hdot⟩ := extract_domain_chars h
  have hne : d ≠ [] := by
    intro he
    rw [he] at hdot
    cases hdot
  have hlow : pyLower d = d := pyLower_fix fun c hc => (hchars c hc).1
  have hnet : ∀ c ∈ d, netlocChar c = true := by
    intro c hc
    have hp := hchars c hc
    unfold netlocChar
    simp [hp.2.1, hp.2.2.1, hp.2.2.2.1]
  have huns : ∀ c ∈ d, isUnsafeUrl c = false := fun c hc => (hchars c hc).2.2.2.2
  have hsent : ¬(d = [] ∨ pyStrip (pyLower d) ∈ missingSentinels) := by
    rintro (he | hmem)
    · exact hne he
    · rw [hlow, hstrip] at hmem
      unfold missingSentinels at hmem
      simp only [List.mem_cons] at hmem
      rcases hmem with hm | hm | hm | hm
      · rw [hm] at hdot
        exact absurd hdot (by decide)
      · rw [hm] at hdot
        exact absurd hdot (by decide)
      · rw [hm] at hdot
        exact absurd hdot (by decide)
      · cases hm
  have hdomf : ∀ nl p, (nl = d ∧ p = []) ∨ (nl = [] ∧ p = d) →
      domainFrom nl p = d := by
    rintro nl p (⟨rfl, rfl⟩ | ⟨rfl, rfl⟩)
    · unfold domainFrom
      rw [if_pos hne, hlow]
      unfold stripPre
      rw [if_neg (by simp [hwww])]
    · unfold domainFrom
      rw [if_neg (by simp), splitCh_headD]
      rw [List.takeWhile_eq_self_iff.mpr ?noslash2]
      case noslash2 =>
        intro c hc
        have := hnet c hc
        unfold netlocChar at this
        simp only [Bool.not_eq_true', Bool.or_eq_false_iff,
          decide_eq_false_iff_not] at this
        simp [this.1.1]
      rw [hlow]
      unfold stripPre
      rw [if_neg (by simp [hwww])]
  simp only [extract_domain]
  rw [if_neg hsent, hstrip]
  by_cases hhttp : strStarts (str "http") d = true
  · rw [if_pos hhttp, urlparseNP_plain hhttp hcol hsemi hnet huns]
    show (if hasChar '.' (domainFrom [] d) = true then some (domainFrom [] d)
      else none) = some d
    rw [hdomf [] d (Or.inr ⟨rfl, rfl⟩), if_pos hdot]
  · rw [if_neg hhttp, urlparseNP_https hcol hb1 hb2 hnet huns]
    show (if hasChar '.' (domainFrom d []) = true then some (domainFrom d [])
      else none) = some d
    rw [hdomf d [] (Or.inl ⟨rfl, rfl⟩), if_pos hdot]

/-!
## Order facts about the harvester's sort key
-/

theorem strLtB_irrefl : ∀ s : Str, strLtB s s = false
  | [] => rfl
  | c :: cs => by
    unfold strLtB
    rw [if_neg (by omega), if_pos rfl]
    exact strLtB_irrefl cs

theorem strLtB_asymm : ∀ {a b : Str}, strLtB a b = true → strLtB b a = false
  | [], [], h => by cases h
  | [], _ :: _, _ => rfl
  | _ :: _, [], h => by cases h
  | a :: as_, b :: bs, h => by
    unfold strLtB at h ⊢
    by_cases hab : a.toNat < b.toNat
    · rw [if_neg (by omega), if_neg fun he => by
        rw [he] at hab
        omega]
    · rw [if_neg hab] at h
      by_cases heq : a = b
      · rw [if_pos heq] at h
        rw [if_neg (by rw [heq]; omega), if_pos heq.symm]
        exact strLtB_asymm h
      · rw [if_neg heq] at h
        cases h

theorem strLtB_conn : ∀ {a b : Str}, strLtB a b = false → strLtB b a = false → a = b
  | [], [], _, _ => rfl
  | [], _ :: _, h, _ => by cases h
  | _ :: _, [], _, h2 => by cases h2
  | a :: as_, b :: bs, h, h2 => by
    unfold strLtB at h h2
    by_cases hab : a.toNat < b.toNat
    · rw [if_pos hab] at h
      cases h
    · by_cases hba : b.toNat < a.toNat
      · rw [if_pos hba] at h2
        cases h2
      · have heq : a = b := char_eq_iff_toNat.mpr (by omega)
        rw [if_neg hab, if_pos heq] at h
        rw [if_neg hba, if_pos heq.symm] at h2
        rw [heq, strLtB_conn h h2]

theorem strLtB_trans : ∀ {a b c : Str}, strLtB a b = true → strLtB b c = true →
    strLtB a c = true
  | [], [], _, h, _ => by cases h
  | [], _ :: _, [], _, h2 => by cases h2
  | [], _ :: _, _ :: _, _, _ => rfl
  | _ :: _, [], _, h, _ => by cases h
  | _ :: _, _ :: _, [], _, h2 => by cases h2
  | a :: as_, b :: bs, c :: cs, h, h2 => by
    unfold strLtB at h h2 ⊢
    by_cases hab : a.toNat < b.toNat
    · by_cases hbc : b.toNat < c.toNat
      · rw [if_pos (by omega)]
      · rw [if_neg hbc] at h2
        by_cases heq : b = c
        · rw [if_pos (by rw [← heq]; exact hab)]
        · rw [if_neg heq] at h2
          cases h2
    · rw [if_neg hab] at h
      by_cases heq : a = b
      · rw [if_pos heq] at h
        by_cases hbc : b.toNat < c.toNat
        · rw [if_pos (by rw [char_eq_iff_toNat] at heq; omega)]
        · rw [if_neg hbc] at h2
          by_cases heq2 : b = c
          · rw [if_pos heq2] at h2
            rw [if_neg (by rw [heq, heq2]; omega), if_pos (heq.trans heq2)]
            exact strLtB_trans h h2
          · rw [if_neg heq2] at h2
            cases h2
      · rw [if_neg heq] at h
        cases h

/-- The harvester's key comparison, with the lets of the definition spelt
out. -/
theorem emailKeyLt_eq (d a b : Str) : emailKeyLt d a b =
    (if (if occursIn d a then (0 : Nat) else 1) <
        (if occursIn d b then (0 : Nat) else 1) then true
     else if (if occursIn d a then (0 : Nat) else 1) =
        (if occursIn d b then (0 : Nat) else 1) then strLtB a b
     else false) := rfl

theorem emailKeyLt_asymm {d a b : Str} (h : emailKeyLt d a b = true) :
    emailKeyLt d b a = false := by
  rw [emailKeyLt_eq] at h ⊢
  rcases Bool.eq_false_or_eq_true (occursIn d a) with ha | ha <;>
    rcases Bool.eq_false_or_eq_true (occursIn d b) with hb | hb <;>
    rw [ha, hb] at h ⊢ <;> simp at h ⊢ <;> exact strLtB_asymm h

theorem emailKeyLt_conn {d a b : Str} (h : emailKeyLt d a b = false)
    (h2 : emailKeyLt d b a = false) : a = b := by
  rw [emailKeyLt_eq] at h h2
  rcases Bool.eq_false_or_eq_true (occursIn d a) with ha | ha <;>
    rcases Bool.eq_false_or_eq_true (occursIn d b) with hb | hb <;>
    rw [ha, hb] at h h2 <;> simp at h h2 <;> exact strLtB_conn h h2

theorem emailKeyLt_trans {d a b c : Str} (h : emailKeyLt d a b = true)
    (h2 : emailKeyLt d b c = true) : emailKeyLt d a c = true := by
  rw [emailKeyLt_eq] at h h2 ⊢
  rcases Bool.eq_false_or_eq_true (occursIn d a) with ha | ha <;>
    rcases Bool.eq_false_or_eq_true (occursIn d b) with hb | hb <;>
    rcases Bool.eq_false_or_eq_true (occursIn d c) with hc | hc <;>
    rw [ha, hb] at h <;> rw [hb, hc] at h2 <;> rw [ha, hc] <;>
    simp at h h2 ⊢ <;> exact strLtB_trans h h2

/-!
## Facts about `_title_rank`
-/

theorem titleRankGo_none (t : Str) : ∀ (ps : List Str) (i : Nat),
    (∀ p ∈ ps, occursIn p t = false) → titleRankGo t i ps = 999 := by
  intro ps
  induction ps with
  | nil => intro i _; rfl
  | cons p ps ih =>
    intro i h
    unfold titleRankGo
    rw [if_neg (by simp [h p (List.mem_cons_self p ps)])]
    exact ih (i + 1) fun q hq => h q (List.mem_cons_of_mem p hq)

theorem titleRankGo_at (t : Str) : ∀ (ps : List Str) (i j : Nat),
    j < ps.length →
    occursIn (ps.getD j []) t = true →
    (∀ k, k < j → occursIn (ps.getD k []) t = false) →
    titleRankGo t i ps = i + j := by
  intro ps
  induction ps with
  | nil =>
    intro i j hj _ _
    simp at hj
  | cons p ps ih =>
    intro i j hj ho hb
    unfold titleRankGo
    cases j with
    | zero =>
      rw [if_pos (by simpa using ho)]
      omega
    | succ j2 =>
      have h0 : occursIn p t = false := by simpa using hb 0 (Nat.succ_pos j2)
      rw [if_neg (by simp [h0])]
      have h2 := ih (i + 1) j2 (by simpa using hj) (by simpa using ho)
        (fun k hk => by simpa using hb (k + 1) (by omega))
      omega

/-!
## The Method-3 adoption rule and concrete oracles
-/

/-- How `enrich_contact` merges a targeted Email Finder result into the best
contact: the returned email is adopted, phone and LinkedIn only into fields
still empty; a failed lookup changes nothing. -/
def finderAdopt (best : Contact) (found : FinderRes) : Contact :=
  if !found.email.isEmpty then
    { best with
        email := found.email,
        phone := if best.phone.isEmpty ∧ !found.phone.isEmpty
                 then found.phone else best.phone,
        linkedin := if best.linkedin.isEmpty ∧ !found.linkedin.isEmpty
                    then found.linkedin else best.linkedin }
  else best

/-- A fetch oracle for concrete instances: every URL fails. -/
def fetchNone : Str → Option Doc := fun _ => none

/-- The identity subpage-set iteration order. -/
def ordId : List Str → List Str := fun l => l

/-- A join oracle returning the link target unchanged. -/
def joinHref : Str → Str → Str := fun _ h => h

/-- A Directory oracle with no data. -/
def hunterNone : Str → Option (List HunterEntry) := fun _ => none

/-- An Email Finder oracle that always fails. -/
def finderNone : Str → Str → Str → FinderRes := fun _ _ _ => {}

/-- The matcher state `same_line_pattern.search` reaches on
`"Mark Doe, Managing Partner"`. -/
def stMarkDoe : MSt :=
  { s := [], prev := some 'r', g1 := str "Mark Doe",
    g2 := str "Managing Partner" }

theorem enrichStep3_len (fr : Str → Str → Str → FinderRes) (dom : Option Str)
    (key : Str) (best : Contact) :
    (enrichStep3 fr dom key best).2.length ≤ 1 := by
  cases dom with
  | none => simp [enrichStep3]
  | some d =>
    simp only [enrichStep3]
    split
    · split
      · split
        · simp
        · simp
      · simp
    · simp

theorem enrichStep3_log_some (fr : Str → Str → Str → FinderRes) (d key : Str)
    (best : Contact) :
    (enrichStep3 fr (some d) key best).2 =
      if !key.isEmpty ∧ !d.isEmpty ∧ !best.name.isEmpty ∧
         best.email.isEmpty ∧ (pyWords best.name).length ≥ 2 then
        [(d, (pyWords best.name).headD [], (pyWords best.name).getLastD [])]
      else [] := by
  simp only [enrichStep3]
  by_cases h1 : !key.isEmpty ∧ !d.isEmpty ∧ !best.name.isEmpty ∧
      best.email.isEmpty
  · rw [if_pos h1]
    by_cases h2 : (pyWords best.name).length ≥ 2
    · have hc : (!key.isEmpty ∧ !d.isEmpty ∧ !best.name.isEmpty ∧
          best.email.isEmpty ∧ (pyWords best.name).length ≥ 2) :=
        ⟨h1.1, h1.2.1, h1.2.2.1, h1.2.2.2, h2⟩
      rw [if_pos h2, if_pos hc]
      split
      · rfl
      · rfl
    · rw [if_neg h2, if_neg fun hc => h2 hc.2.2.2.2]
  · rw [if_neg h1, if_neg fun hc => h1 ⟨hc.1, hc.2.1, hc.2.2.1, hc.2.2.2.1⟩]

theorem enrichStep3_adopt (fr : Str → Str → Str → FinderRes) (dom : Option Str)
    (key : Str) (best : Contact) :
    (∀ c ∈ (enrichStep3 fr dom key best).2,
      (enrichStep3 fr dom key best).1 =
        finderAdopt best (hunter_email_finder fr c.1 c.2.1 c.2.2 key)) ∧
    ((enrichStep3 fr dom key best).2 = [] →
      (enrichStep3 fr dom key best).1 = best) := by
  cases dom with
  | none => exact ⟨fun c hc => absurd hc (by simp [enrichStep3]), fun _ => rfl⟩
  | some d =>
    simp only [enrichStep3]
    split
    · split
      · split
        · rename_i hfound
          refine ⟨fun c hc => ?_, fun hemp => by simp at hemp⟩
          rw [List.mem_singleton] at hc
          subst hc
          unfold finderAdopt
          rw [if_pos hfound]
        · rename_i hfound
          refine ⟨fun c hc => ?_, fun hemp => by simp at hemp⟩
          rw [List.mem_singleton] at hc
          subst hc
          unfold finderAdopt
          rw [if_neg hfound]
      · exact ⟨fun c hc => absurd hc (by simp), fun _ => rfl⟩
    · exact ⟨fun c hc => absurd hc (by simp), fun _ => rfl⟩

/-!
## The claims
-/

/-- Claim C1 (amended to the website-scraped source): every candidate
produced by `_extract_contacts_from_soup` has a NameValidator-passing name
whenever its name is non-empty, and whenever its email is non-empty that
email satisfies the email-validity grammar, its domain part is not in the
excluded-domain set, and its local part starts with no generic role prefix.
The claim's extension to `_hunter_domain_search` candidates is false: the
Directory translation applies no validation (see `C1_counterexample`). -/
theorem C1_scraped_candidate_invariant {doc : Doc} {domain : Option Str}
    {c : Candidate} (h : c ∈ extract_contacts_from_soup doc domain) :
    (c.name ≠ [] → is_valid_person_name c.name = true) ∧
    (c.email ≠ [] → Matches emailRe c.email ∧
      emailDomainOf c.email ∉ EXCLUDED_EMAIL_DOMAINS ∧
      ∀ p ∈ EXCLUDED_EMAIL_PREFIXES, strStarts p c.email = false) := by
  obtain ⟨hn, he⟩ := extract_contacts_inv h
  refine ⟨hn, fun hne => ?_⟩
  rcases he with h0 | hmem
  · exact absurd h0 hne
  · obtain ⟨hm, hk⟩ := extract_emails_mem hmem
    obtain ⟨hd, hp, _⟩ := keepEmail_props hk
    exact ⟨hm, hd, hp⟩

/-- Claim C1, counterexample: a Directory (hunter.io) candidate is built with
no validation at all — an email with an excluded role prefix and a one-letter
non-name pass straight through `_hunter_domain_search`. -/
theorem C1_counterexample :
    ∃ c ∈ hunter_domain_search
        (some [{ first_name := some (str "X"),
                 value := some (str "info@acme.com") }])
        (str "acme.com") (str "k"),
      c.email = str "info@acme.com" ∧
      strStarts (str "info@") c.email = true ∧
      str "info@" ∈ EXCLUDED_EMAIL_PREFIXES ∧
      c.name = str "X" ∧ is_valid_person_name c.name = false := by decide

/-- Claim C1, witness: the harvested-email fallback candidate of a concrete
page. -/
theorem C1_scraped_candidate_invariant_witness :
    (mkWebCand [] (str "jane@acme.com") [] ∈
      extract_contacts_from_soup ⟨[str "mailto:jane@acme.com"], [], []⟩ none) ∧
    ((mkWebCand [] (str "jane@acme.com") []).name ≠ [] →
      is_valid_person_name (mkWebCand [] (str "jane@acme.com") []).name = true) ∧
    ((mkWebCand [] (str "jane@acme.com") []).email ≠ [] →
      Matches emailRe (mkWebCand [] (str "jane@acme.com") []).email ∧
      emailDomainOf (mkWebCand [] (str "jane@acme.com") []).email ∉
        EXCLUDED_EMAIL_DOMAINS ∧
      ∀ p ∈ EXCLUDED_EMAIL_PREFIXES,
        strStarts p (mkWebCand [] (str "jane@acme.com") []).email = false) := by
  have hm : mkWebCand [] (str "jane@acme.com") [] ∈
      extract_contacts_from_soup ⟨[str "mailto:jane@acme.com"], [], []⟩ none := by
    decide
  exact ⟨hm, C1_scraped_candidate_invariant hm⟩

/-- Claim C3: the email harvester never returns an address whose domain part
is in the fixed excluded-domain set, nor one whose local part starts with a
generic role prefix (the `info@`, `support@`, ... set). -/
theorem C3_harvester_exclusions {doc : Doc} {domain : Option Str} {e : Str}
    (h : e ∈ extract_emails_from_soup doc domain) :
    emailDomainOf e ∉ EXCLUDED_EMAIL_DOMAINS ∧
    ∀ p ∈ EXCLUDED_EMAIL_PREFIXES, strStarts p e = false := by
  obtain ⟨_, hk⟩ := extract_emails_mem h
  obtain ⟨hd, hp, _⟩ := keepEmail_props hk
  exact ⟨hd, hp⟩

/-- Claim C3, witness: `info@acme.com` is dropped while `jane@acme.com` is
kept, and the kept address satisfies the exclusion facts. -/
theorem C3_harvester_exclusions_witness :
    (str "jane@acme.com" ∈ extract_emails_from_soup
      ⟨[str "mailto:info@acme.com", str "mailto:jane@acme.com"], [], []⟩ none) ∧
    (str "info@acme.com" ∉ extract_emails_from_soup
      ⟨[str "mailto:info@acme.com", str "mailto:jane@acme.com"], [], []⟩ none) ∧
    emailDomainOf (str "jane@acme.com") ∉ EXCLUDED_EMAIL_DOMAINS ∧
    ∀ p ∈ EXCLUDED_EMAIL_PREFIXES, strStarts p (str "jane@acme.com") = false := by
  have hm : str "jane@acme.com" ∈ extract_emails_from_soup
      ⟨[str "mailto:info@acme.com", str "mailto:jane@acme.com"], [], []⟩ none := by
    decide
  exact ⟨hm, by decide, C3_harvester_exclusions hm⟩

/-- Claim C4: on a page whose text lines are "Chief Compliance Officer", a
blank line, and then "Jane A. Smith has over twenty years of experience.",
Strategy A yields exactly the candidate with name "Jane A. Smith" and title
"Chief Compliance Officer" from source `website`. -/
theorem C4_strategyA_example :
    strategyA (docStrippedLines ⟨[], [str "Chief Compliance Officer", str "",
        str "Jane A. Smith has over twenty years of experience."], []⟩) =
      [{ name := str "Jane A. Smith", email := [],
         title := str "Chief Compliance Officer",
         source := str "website" }] := by decide

/-- Claim C5 (amended to the one order the pattern accepts): on every
stripped line where `same_line_pattern` finds a match — a capitalized
two-token name, a separator, then a known title phrase — Strategy B yields
the candidate with the captured name and the title-cased captured title,
provided the name passes NameValidator.  The inverse order (title first) is
not matched: see `C5_counterexample`. -/
theorem C5_strategyB_same_line {stripped : List Str} {line : Str} {st : MSt}
    (hl : line ∈ stripped) (hs : reSearch sameLineRe line = some st)
    (hv : is_valid_person_name (pyStrip st.g1) = true) :
    mkWebCand (pyStrip st.g1) [] (pyTitle (pyStrip st.g2)) ∈
      strategyB stripped :=
  strategyB_complete hl hs hv

/-- Claim C5, counterexample: the inverse order "Managing Partner, Mark Doe"
(title, separator, name) yields no candidate, although "Mark Doe" passes
NameValidator — the pattern has no title-first alternative. -/
theorem C5_counterexample :
    strategyB [str "Managing Partner, Mark Doe"] = [] ∧
    is_valid_person_name (str "Mark Doe") = true := by decide

/-- Claim C5, witness: the line "Mark Doe, Managing Partner". -/
theorem C5_strategyB_same_line_witness :
    (str "Mark Doe, Managing Partner" ∈ [str "Mark Doe, Managing Partner"]) ∧
    reSearch sameLineRe (str "Mark Doe, Managing Partner") = some stMarkDoe ∧
    mkWebCand (pyStrip stMarkDoe.g1) [] (pyTitle (pyStrip stMarkDoe.g2)) ∈
      strategyB [str "Mark Doe, Managing Partner"] := by
  have hs : reSearch sameLineRe (str "Mark Doe, Managing Partner") =
      some stMarkDoe := by decide
  exact ⟨List.mem_singleton.mpr rfl, hs,
    C5_strategyB_same_line (List.mem_singleton.mpr rfl) hs (by decide)⟩

/-- Claim C8: the reconciler is deterministic — on equal candidate lists
(same entries, same order) `_select_best_contact` returns contacts equal in
every field. -/
theorem C8_reconciler_deterministic (l1 l2 : List Candidate) (h : l1 = l2) :
    (select_best_contact l1).name = (select_best_contact l2).name ∧
    (select_best_contact l1).email = (select_best_contact l2).email ∧
    (select_best_contact l1).title = (select_best_contact l2).title ∧
    (select_best_contact l1).phone = (select_best_contact l2).phone ∧
    (select_best_contact l1).linkedin = (select_best_contact l2).linkedin := by
  subst h
  exact ⟨rfl, rfl, rfl, rfl, rfl⟩

/-- Claim C8, witness: a concrete candidate list. -/
theorem C8_reconciler_deterministic_witness :
    ([mkWebCand (str "Ann Lee") [] (str "Cco")] =
      [mkWebCand (str "Ann Lee") [] (str "Cco")]) ∧
    (select_best_contact [mkWebCand (str "Ann Lee") [] (str "Cco")]).name =
      (select_best_contact [mkWebCand (str "Ann Lee") [] (str "Cco")]).name ∧
    (select_best_contact [mkWebCand (str "Ann Lee") [] (str "Cco")]).email =
      (select_best_contact [mkWebCand (str "Ann Lee") [] (str "Cco")]).email ∧
    (select_best_contact [mkWebCand (str "Ann Lee") [] (str "Cco")]).title =
      (select_best_contact [mkWebCand (str "Ann Lee") [] (str "Cco")]).title ∧
    (select_best_contact [mkWebCand (str "Ann Lee") [] (str "Cco")]).phone =
      (select_best_contact [mkWebCand (str "Ann Lee") [] (str "Cco")]).phone ∧
    (select_best_contact [mkWebCand (str "Ann Lee") [] (str "Cco")]).linkedin =
      (select_best_contact [mkWebCand (str "Ann Lee") [] (str "Cco")]).linkedin :=
  ⟨rfl, C8_reconciler_deterministic _ _ rfl⟩

/-- Claim C10: an absent URL, and any URL whose stripped lower-cased form is
one of the sentinels "nan", "" or "none", makes `extract_domain` return
absence and `_scrape_website_contacts` return no contacts with an empty
fetch log — nothing is fetched, the sentinels are never treated as
hostnames. -/
theorem C10_missing_sentinels (fetch : Str → Option Doc)
    (ord : List Str → List Str) (join : Str → Str → Str) (u : Str)
    (h : u = [] ∨ pyStrip (pyLower u) ∈ missingSentinels) :
    extract_domain (some u) = none ∧
    scrape_website_contacts fetch ord join (some u) = ([], []) ∧
    extract_domain none = none ∧
    scrape_website_contacts fetch ord join none = ([], []) := by
  refine ⟨?_, ?_, rfl, rfl⟩
  · simp only [extract_domain]
    rw [if_pos h]
  · simp only [scrape_website_contacts]
    rw [if_pos h]

/-- Claim C10, witness: the sentinel string " NaN ". -/
theorem C10_missing_sentinels_witness :
    (str " NaN " = [] ∨ pyStrip (pyLower (str " NaN ")) ∈ missingSentinels) ∧
    extract_domain (some (str " NaN ")) = none ∧
    scrape_website_contacts fetchNone ordId joinHref (some (str " NaN ")) =
      ([], []) ∧
    extract_domain none = none ∧
    scrape_website_contacts fetchNone ordId joinHref none = ([], []) := by
  have h : str " NaN " = [] ∨ pyStrip (pyLower (str " NaN ")) ∈ missingSentinels :=
    Or.inr (by decide)
  exact ⟨h, C10_missing_sentinels fetchNone ordId joinHref (str " NaN ") h⟩

/-- Claim C6 (amended: "domain match" is substring containment in the whole
address, not equality with the domain part): for a non-absent, non-empty
firm domain, the harvester's output is sorted so that every address in which
the domain occurs as a substring precedes every address in which it does
not, with ties inside each group broken by code-point order.  What the key
tests is containment in the entire address, so an address whose domain part
differs can lead the list: see `C6_counterexample`. -/
theorem C6_email_sort (doc : Doc) (d : Str) (hd : d ≠ []) :
    (extract_emails_from_soup doc (some d)).Pairwise fun a b =>
      (occursIn d a = false → occursIn d b = false) ∧
      (occursIn d a = occursIn d b → strLtB b a = false) := by
  unfold extract_emails_from_soup
  show List.Pairwise _
    (if d ≠ [] then
      pySortStr (emailKeyLt d) ((textFold (mailtoFold doc.anchors)
        (getText (str " ") doc.texts)).filter keepEmail)
     else (textFold (mailtoFold doc.anchors)
        (getText (str " ") doc.texts)).filter keepEmail)
  rw [if_pos hd]
  unfold pySortStr
  haveI : IsTotal Str fun a b => emailKeyLt d b a = false := ⟨fun a b => by
    rcases Bool.eq_false_or_eq_true (emailKeyLt d b a) with h | h
    · exact Or.inr (emailKeyLt_asymm h)
    · exact Or.inl h⟩
  haveI : IsTrans Str fun a b => emailKeyLt d b a = false := ⟨fun a b c hab hbc => by
    rcases Bool.eq_false_or_eq_true (emailKeyLt d c a) with h | h
    · rcases Bool.eq_false_or_eq_true (emailKeyLt d b c) with hbc2 | hbc2
      · have := emailKeyLt_trans hbc2 h
        rw [this] at hab
        cases hab
      · have he := emailKeyLt_conn hbc2 hbc
        rw [← he] at h
        rw [h] at hab
        cases hab
    · exact h⟩
  have hs : List.Sorted (fun a b => emailKeyLt d b a = false)
      (List.insertionSort (fun a b => emailKeyLt d b a = false)
        ((textFold (mailtoFold doc.anchors)
          (getText (str " ") doc.texts)).filter keepEmail)) :=
    List.sorted_insertionSort _ _
  refine List.Pairwise.imp ?_ hs
  intro a b hab
  constructor
  · intro hoa
    rcases Bool.eq_false_or_eq_true (occursIn d b) with hob | hob
    · rw [emailKeyLt_eq, hoa, hob] at hab
      simp at hab
    · exact hob
  · intro heq
    rw [emailKeyLt_eq, ← heq] at hab
    rcases Bool.eq_false_or_eq_true (occursIn d a) with hoa | hoa <;>
      rw [hoa] at hab <;> simpa using hab

/-- Claim C6, counterexample: with firm domain `acme.com`,
`acme.com@gmail.com` (domain part `gmail.com`) precedes `bob@acme.com`
(domain part `acme.com`), because the key tests substring containment in the
whole address. -/
theorem C6_counterexample :
    extract_emails_from_soup
        ⟨[str "mailto:bob@acme.com", str "mailto:acme.com@gmail.com"], [], []⟩
        (some (str "acme.com")) =
      [str "acme.com@gmail.com", str "bob@acme.com"] ∧
    emailDomainOf (str "acme.com@gmail.com") = str "gmail.com" ∧
    emailDomainOf (str "bob@acme.com") = str "acme.com" ∧
    str "gmail.com" ≠ str "acme.com" := by decide

/-- Claim C6, witness: a concrete two-address page. -/
theorem C6_email_sort_witness :
    (str "acme.com" ≠ ([] : Str)) ∧
    (extract_emails_from_soup
        ⟨[str "mailto:zed@other.org", str "mailto:ann@acme.com"], [], []⟩
        (some (str "acme.com"))).Pairwise (fun a b =>
      (occursIn (str "acme.com") a = false →
        occursIn (str "acme.com") b = false) ∧
      (occursIn (str "acme.com") a = occursIn (str "acme.com") b →
        strLtB b a = false)) :=
  ⟨by decide, C6_email_sort
    ⟨[str "mailto:zed@other.org", str "mailto:ann@acme.com"], [], []⟩
    (str "acme.com") (by decide)⟩

/-- Claim C7 (amended): every domain `extract_domain` returns is free of
upper-case letters and contains a dot, and the function is idempotent on
outputs that do not start with `www.`, contain none of `:` `;` `[` `]`, and
are whitespace-stripped; a hostname without a dot (`localhost`) yields
absence, and `https://www.acme.com/` yields `acme.com`.  Unrestricted
idempotence, the claim's upper-case example, and unconditional `www.`
stripping are false: see `C7_counterexample`. -/
theorem C7_domain_canonicalization {u d : Str}
    (h : extract_domain (some u) = some d) :
    (∀ c ∈ d, c.isUpper = false) ∧
    hasChar '.' d = true ∧
    (strStarts (str "www.") d = false → hasChar ':' d = false →
      hasChar ';' d = false → hasChar '[' d = false → hasChar ']' d = false →
      pyStrip d = d → extract_domain (some d) = some d) ∧
    extract_domain (some (str "localhost")) = none ∧
    extract_domain (some (str "https://www.acme.com/")) = some (str "acme.com") := by
  obtain ⟨hc, hdot⟩ := extract_domain_chars h
  exact ⟨fun c hcm => (hc c hcm).1, hdot,
    fun h1 h2 h3 h4 h5 h6 => extract_domain_idem h h1 h2 h3 h4 h5 h6,
    by decide, by decide⟩

/-- Claim C7, counterexample: the claim's own example input with upper-case
scheme yields absence (the `http` check is case-sensitive, so a second
scheme is prepended); and idempotence fails in general, since only one
leading `www.` is stripped. -/
theorem C7_counterexample :
    extract_domain (some (str "HTTPS://WWW.Acme.com/")) = none ∧
    extract_domain (some (str "www.www.acme.com")) = some (str "www.acme.com") ∧
    extract_domain (some (str "www.acme.com")) = some (str "acme.com") ∧
    str "www.acme.com" ≠ str "acme.com" := by decide

/-- Claim C7, witness: `https://acme.com`. -/
theorem C7_domain_canonicalization_witness :
    extract_domain (some (str "https://acme.com")) = some (str "acme.com") ∧
    ((∀ c ∈ str "acme.com", c.isUpper = false) ∧
     hasChar '.' (str "acme.com") = true ∧
     (strStarts (str "www.") (str "acme.com") = false →
      hasChar ':' (str "acme.com") = false →
      hasChar ';' (str "acme.com") = false →
      hasChar '[' (str "acme.com") = false →
      hasChar ']' (str "acme.com") = false →
      pyStrip (str "acme.com") = str "acme.com" →
      extract_domain (some (str "acme.com")) = some (str "acme.com")) ∧
     extract_domain (some (str "localhost")) = none ∧
     extract_domain (some (str "https://www.acme.com/")) =
       some (str "acme.com")) := by
  have h : extract_domain (some (str "https://acme.com")) =
      some (str "acme.com") := by decide
  exact ⟨h, C7_domain_canonicalization h⟩

/-- Claim C9: a candidate's title rank is the index of the first
`TITLE_PRIORITY` entry that occurs as a contiguous substring anywhere in the
lower-cased (stripped) title, 999 when none occurs; consequently
"Accounting Manager" — whose lower-cased form contains "cco" — receives rank
1 and outranks the genuinely senior "Chief Executive Officer" (rank 7). -/
theorem C9_title_rank_substring (title : Str) :
    ((∀ p ∈ TITLE_PRIORITY, occursIn p (pyStrip (pyLower title)) = false) →
      title_rank title = 999) ∧
    (∀ j, j < TITLE_PRIORITY.length →
      occursIn (TITLE_PRIORITY.getD j []) (pyStrip (pyLower title)) = true →
      (∀ k, k < j →
        occursIn (TITLE_PRIORITY.getD k []) (pyStrip (pyLower title)) = false) →
      title_rank title = j) ∧
    (TITLE_PRIORITY.getD 1 [] = str "cco" ∧
     occursIn (str "cco") (pyStrip (pyLower (str "Accounting Manager"))) = true ∧
     title_rank (str "Accounting Manager") = 1 ∧
     title_rank (str "Chief Executive Officer") = 7 ∧
     title_rank (str "Accounting Manager") <
       title_rank (str "Chief Executive Officer")) := by
  refine ⟨fun h => titleRankGo_none _ _ _ h, fun j hj ho hb => ?_, by decide⟩
  unfold title_rank
  rw [titleRankGo_at (pyStrip (pyLower title)) TITLE_PRIORITY 0 j hj ho hb]
  omega

/-- Claim C2: `enrich_contact` issues the targeted Email Finder lookup at
most once, and issues it exactly when a domain was extracted, the API key is
non-empty, the domain is non-empty, the merged best contact has a non-empty
name of at least two whitespace-separated tokens, and the merge produced an
empty email; the one call carries the domain with the first and last name
tokens, its returned email is adopted, and its phone and LinkedIn are
adopted only into still-empty fields (the `finderAdopt` rule); with no call
the merged contact passes through unchanged. -/
theorem C2_targeted_lookup_policy (fetch : Str → Option Doc)
    (ord : List Str → List Str) (join : Str → Str → Str)
    (hunterResp : Str → Option (List HunterEntry))
    (finderResp : Str → Str → Str → FinderRes)
    (website_url : Option Str) (hunter_api_key : Option Str) :
    (enrich_contact fetch ord join hunterResp finderResp website_url
        hunter_api_key).2.length ≤ 1 ∧
    (enrich_contact fetch ord join hunterResp finderResp website_url
        hunter_api_key).2 =
      (match extract_domain website_url with
       | none => []
       | some d =>
         if !(hunter_api_key.getD []).isEmpty ∧ !d.isEmpty ∧
            !(select_best_contact (mergedCands fetch ord join hunterResp
              website_url hunter_api_key)).name.isEmpty ∧
            (select_best_contact (mergedCands fetch ord join hunterResp
              website_url hunter_api_key)).email.isEmpty ∧
            (pyWords (select_best_contact (mergedCands fetch ord join
              hunterResp website_url hunter_api_key)).name).length ≥ 2 then
           [(d,
             (pyWords (select_best_contact (mergedCands fetch ord join
               hunterResp website_url hunter_api_key)).name).headD [],
             (pyWords (select_best_contact (mergedCands fetch ord join
               hunterResp website_url hunter_api_key)).name).getLastD [])]
         else []) ∧
    (∀ call ∈ (enrich_contact fetch ord join hunterResp finderResp
        website_url hunter_api_key).2,
      (enrich_contact fetch ord join hunterResp finderResp website_url
          hunter_api_key).1.contact_email =
        (finderAdopt (select_best_contact (mergedCands fetch ord join
            hunterResp website_url hunter_api_key))
          (hunter_email_finder finderResp call.1 call.2.1 call.2.2
            (hunter_api_key.getD []))).email ∧
      (enrich_contact fetch ord join hunterResp finderResp website_url
          hunter_api_key).1.contact_phone =
        (finderAdopt (select_best_contact (mergedCands fetch ord join
            hunterResp website_url hunter_api_key))
          (hunter_email_finder finderResp call.1 call.2.1 call.2.2
            (hunter_api_key.getD []))).phone ∧
      (enrich_contact fetch ord join hunterResp finderResp website_url
          hunter_api_key).1.contact_linkedin =
        (finderAdopt (select_best_contact (mergedCands fetch ord join
            hunterResp website_url hunter_api_key))
          (hunter_email_finder finderResp call.1 call.2.1 call.2.2
            (hunter_api_key.getD []))).linkedin) ∧
    ((enrich_contact fetch ord join hunterResp finderResp website_url
        hunter_api_key).2 = [] →
      (enrich_contact fetch ord join hunterResp finderResp website_url
          hunter_api_key).1.contact_email =
        (select_best_contact (mergedCands fetch ord join hunterResp
          website_url hunter_api_key)).email ∧
      (enrich_contact fetch ord join hunterResp finderResp website_url
          hunter_api_key).1.contact_phone =
        (select_best_contact (mergedCands fetch ord join hunterResp
          website_url hunter_api_key)).phone ∧
      (enrich_contact fetch ord join hunterResp finderResp website_url
          hunter_api_key).1.contact_linkedin =
        (select_best_contact (mergedCands fetch ord join hunterResp
          website_url hunter_api_key)).linkedin) := by
  have hL2 : (enrich_contact fetch ord join hunterResp finderResp website_url
      hunter_api_key).2 =
    (enrichStep3 finderResp (extract_domain website_url)
      (hunter_api_key.getD [])
      (select_best_contact (mergedCands fetch ord join hunterResp website_url
        hunter_api_key))).2 := rfl
  have hLe : (enrich_contact fetch ord join hunterResp finderResp website_url
      hunter_api_key).1.contact_email =
    (enrichStep3 finderResp (extract_domain website_url)
      (hunter_api_key.getD [])
      (select_best_contact (mergedCands fetch ord join hunterResp website_url
        hunter_api_key))).1.email := rfl
  have hLp : (enrich_contact fetch ord join hunterResp finderResp website_url
      hunter_api_key).1.contact_phone =
    (enrichStep3 finderResp (extract_domain website_url)
      (hunter_api_key.getD [])
      (select_best_contact (mergedCands fetch ord join hunterResp website_url
        hunter_api_key))).1.phone := rfl
  have hLl : (enrich_contact fetch ord join hunterResp finderResp website_url
      hunter_api_key).1.contact_linkedin =
    (enrichStep3 finderResp (extract_domain website_url)
      (hunter_api_key.getD [])
      (select_best_contact (mergedCands fetch ord join hunterResp website_url
        hunter_api_key))).1.linkedin := rfl
  obtain ⟨hadopt, hnone⟩ := enrichStep3_adopt finderResp
    (extract_domain website_url) (hunter_api_key.getD [])
    (select_best_contact (mergedCands fetch ord join hunterResp website_url
      hunter_api_key))
  refine ⟨?_, ?_, ?_, ?_⟩
  · rw [hL2]
    exact enrichStep3_len _ _ _ _
  · rw [hL2]
    cases hdom : extract_domain website_url with
    | none => rfl
    | some d => rw [enrichStep3_log_some]
  · intro call hc
    rw [hL2] at hc
    have := hadopt call hc
    rw [hLe, hLp, hLl, this]
    exact ⟨rfl, rfl, rfl⟩
  · intro hemp
    rw [hL2] at hemp
    have := hnone hemp
    rw [hLe, hLp, hLl, this]
    exact ⟨rfl, rfl, rfl⟩
